import Mathlib

/-!
Formal model of the hydrus client file-storage and file-maintenance core
(`hydrus/client/ClientFiles.py`), as a shallow embedding in Lean.

Each definition mirrors one Python function or constant table of the source;
filesystem state, the controller, and other external collaborators are
modelled as explicit parameters or effect traces.
-/

set_option autoImplicit false

namespace HydrusFiles

/-- The REGENERATE_FILE_DATA_JOB_* enumeration of ClientFiles.py (values 0..21). -/
inductive RegenJob where
  | fileMetadata                              -- 0
  | forceThumbnail                            -- 1
  | refitThumbnail                            -- 2
  | otherHashes                               -- 3
  | deleteNeighbourDupes                      -- 4
  | integrityPresenceRemoveRecord             -- 5
  | integrityDataRemoveRecord                 -- 6
  | fixPermissions                            -- 7
  | checkSimilarFilesMembership               -- 8
  | similarFilesMetadata                      -- 9
  | fileModifiedTimestamp                     -- 10
  | integrityPresenceTryUrl                   -- 11
  | integrityDataTryUrl                       -- 12
  | integrityDataSilentDelete                 -- 13
  | integrityPresenceTryUrlElseRemoveRecord   -- 14
  | integrityDataTryUrlElseRemoveRecord       -- 15
  | fileHasIccProfile                         -- 16
  | pixelHash                                 -- 17
  | integrityPresenceLogOnly                  -- 18
  | fileHasHumanReadableEmbeddedMetadata      -- 19
  | fileHasExif                               -- 20
  | integrityPresenceDeleteRecord             -- 21
  deriving DecidableEq, Fintype, Repr

open RegenJob

/-- NORMALISED_BIG_JOB_WEIGHT. -/
def NORMALISED_BIG_JOB_WEIGHT : Nat := 100

/-- The regen_file_enum_to_job_weight_lookup table. -/
def regenFileEnumToJobWeightLookup : RegenJob → Nat
  | fileMetadata => 100
  | forceThumbnail => 50
  | refitThumbnail => 25
  | otherHashes => 100
  | deleteNeighbourDupes => 25
  | integrityPresenceRemoveRecord => 5
  | integrityPresenceDeleteRecord => 5
  | integrityPresenceTryUrl => 25
  | integrityPresenceTryUrlElseRemoveRecord => 30
  | integrityPresenceLogOnly => 5
  | integrityDataRemoveRecord => 100
  | integrityDataTryUrl => 100
  | integrityDataTryUrlElseRemoveRecord => 100
  | integrityDataSilentDelete => 100
  | fixPermissions => 25
  | checkSimilarFilesMembership => 20
  | similarFilesMetadata => 100
  | fileModifiedTimestamp => 10
  | fileHasExif => 25
  | fileHasHumanReadableEmbeddedMetadata => 25
  | fileHasIccProfile => 25
  | pixelHash => 100

/-- The regen_file_enum_to_overruled_jobs table. -/
def regenFileEnumToOverruledJobs : RegenJob → List RegenJob
  | fileMetadata => []
  | forceThumbnail => [ refitThumbnail ]
  | refitThumbnail => []
  | otherHashes => []
  | deleteNeighbourDupes => []
  | integrityPresenceLogOnly => []
  | integrityPresenceDeleteRecord => [ integrityPresenceLogOnly ]
  | integrityPresenceRemoveRecord => [ integrityPresenceLogOnly ]
  | integrityPresenceTryUrl => [ integrityPresenceLogOnly ]
  | integrityPresenceTryUrlElseRemoveRecord =>
      [ integrityPresenceLogOnly, integrityPresenceTryUrl, integrityPresenceRemoveRecord ]
  | integrityDataRemoveRecord =>
      [ integrityPresenceLogOnly, integrityPresenceRemoveRecord ]
  | integrityDataTryUrl =>
      [ integrityPresenceLogOnly, integrityPresenceTryUrl ]
  | integrityDataTryUrlElseRemoveRecord =>
      [ integrityPresenceLogOnly, integrityPresenceTryUrl, integrityPresenceRemoveRecord,
        integrityDataTryUrl, integrityDataRemoveRecord ]
  | integrityDataSilentDelete => []
  | fixPermissions => []
  | checkSimilarFilesMembership => []
  | similarFilesMetadata => [ checkSimilarFilesMembership ]
  | fileModifiedTimestamp => []
  | fileHasExif => []
  | fileHasHumanReadableEmbeddedMetadata => []
  | fileHasIccProfile => []
  | pixelHash => []

/-!
Model of FilesMaintenanceManager._CheckFileIntegrity.

The file's presence on disk, the result of re-hashing it, the record's URLs
and the network engine's URL classifier are external inputs, gathered in
IntegrityEnv.  The function's observable effects (log appends, redownload
dispatches, content updates) are gathered in IntegrityOutcome.
-/

/-- URL types distinguished by the classifier (HC.URL_TYPE_FILE / HC.URL_TYPE_POST
or anything else). -/
inductive UrlType where
  | file
  | post
  | other
  deriving DecidableEq, Repr

/-- Result of domain_manager.GetURLClass on one URL: raises URLClassException,
returns None (unclassified), or returns a class with a URL type. -/
inductive UrlClassResult where
  | classException
  | unclassified
  | classified (t : UrlType)
  deriving DecidableEq, Repr

/-- A content update issued to the external content-update sink
(HC.CONTENT_UPDATE_DELETE or HC.CONTENT_UPDATE_CLEAR_DELETE_RECORD on files). -/
inductive ContentUpdate where
  | delete
  | clearDeleteRecord
  deriving DecidableEq, Repr

/-- External inputs of one _CheckFileIntegrity call. -/
structure IntegrityEnv where
  /-- GetFilePath raised FileMissingException for this hash and mime. -/
  getFilePathMissing : Bool
  /-- GetHashFromPath(path) returned the expected hash (consulted by data jobs only). -/
  actualHashMatches : Bool
  /-- The record's URLs, in order. -/
  urls : List Nat
  /-- The URL classifier's verdict per URL. -/
  classify : Nat → UrlClassResult

/-- The data-level integrity job kinds, which re-hash on-disk content. -/
def isDataIntegrityJob (j : RegenJob) : Bool :=
  j ∈ [ RegenJob.integrityDataRemoveRecord, RegenJob.integrityDataTryUrl,
        RegenJob.integrityDataTryUrlElseRemoveRecord, RegenJob.integrityDataSilentDelete ]

/-- The useful_urls filter of _CheckFileIntegrity: URLs whose class lookup raises are
skipped; unclassified URLs are useful; classified URLs are useful when their type is
FILE or POST. -/
def usefulUrls (env : IntegrityEnv) : List Nat :=
  env.urls.filter fun u =>
    match env.classify u with
    | .classException => false
    | .unclassified => true
    | .classified t => t = .file || t = .post

/-- Observable outcome of one _CheckFileIntegrity call. -/
structure IntegrityOutcome where
  /-- The function's return value (file_was_bad). -/
  fileWasBad : Bool
  /-- The hash was appended to the dated missing-hashes log file. -/
  loggedHashToMissingLog : Bool
  /-- try_redownload decision. -/
  tryRedownload : Bool
  /-- delete_record decision. -/
  deleteRecord : Bool
  /-- URLs handed to the redownloader entry point, in order. -/
  dispatchedUrls : List Nat
  /-- Content updates written to the sink, in order. -/
  contentUpdates : List ContentUpdate
  /-- The bad file was physically moved out to the error directory. -/
  exportedInvalidFile : Bool
  deriving DecidableEq, Repr

/-- FilesMaintenanceManager._CheckFileIntegrity (decision structure and effects). -/
def checkFileIntegrity (jobType : RegenJob) (env : IntegrityEnv) : IntegrityOutcome :=
  let file_is_missing := env.getFilePathMissing
  let file_is_invalid := !file_is_missing && isDataIntegrityJob jobType && !env.actualHashMatches
  let file_was_bad := file_is_missing || file_is_invalid
  if file_was_bad then
    let useful_urls := usefulUrls env
    let (try_redownload, delete_record) :=
      if jobType = RegenJob.integrityPresenceLogOnly then
        (false, false)
      else if jobType ∈ [ RegenJob.integrityPresenceTryUrlElseRemoveRecord,
                          RegenJob.integrityDataTryUrlElseRemoveRecord ] then
        (useful_urls.length > 0, !(useful_urls.length > 0))
      else
        (decide (jobType ∈ [ RegenJob.integrityPresenceTryUrl, RegenJob.integrityDataTryUrl ])
           && useful_urls.length > 0,
         decide (jobType ∈ [ RegenJob.integrityPresenceRemoveRecord,
                             RegenJob.integrityPresenceDeleteRecord,
                             RegenJob.integrityDataRemoveRecord ]))
    let do_export := file_is_invalid
      && (decide (jobType ∈ [ RegenJob.integrityDataRemoveRecord,
                              RegenJob.integrityDataTryUrlElseRemoveRecord,
                              RegenJob.integrityDataSilentDelete ])
          || (jobType = RegenJob.integrityDataTryUrl && try_redownload))
    let leave_deletion_record := jobType = RegenJob.integrityPresenceDeleteRecord
    { fileWasBad := true
      loggedHashToMissingLog := true
      tryRedownload := try_redownload
      deleteRecord := delete_record
      dispatchedUrls := if try_redownload then useful_urls else []
      contentUpdates :=
        if delete_record then
          if leave_deletion_record then [ ContentUpdate.delete ]
          else [ ContentUpdate.delete, ContentUpdate.clearDeleteRecord ]
        else []
      exportedInvalidFile := do_export }
  else
    { fileWasBad := false
      loggedHashToMissingLog := false
      tryRedownload := false
      deleteRecord := false
      dispatchedUrls := []
      contentUpdates := []
      exportedInvalidFile := false }

/-- A concrete integrity environment: file missing from disk, two URLs both
classified as post-type. -/
def postUrlsEnv : IntegrityEnv where
  getFilePathMissing := true
  actualHashMatches := true
  urls := [ 10, 11 ]
  classify := fun _ => UrlClassResult.classified UrlType.post

/-!
Model of ClientFilesManager._AddFile and _HandleCriticalDriveError.

The free-space probe, the incoming file's size and the success of
HydrusPaths.MirrorFile are external inputs.
-/

/-- The three pause options set by _HandleCriticalDriveError. -/
structure GlobalOptions where
  pauseImportFoldersSync : Bool
  pauseSubsSync : Bool
  pauseAllFileQueues : Bool
  deriving DecidableEq, Repr

/-- ClientFilesManager._HandleCriticalDriveError: pauses import folders,
subscriptions and all file queues. -/
def handleCriticalDriveError (_o : GlobalOptions) : GlobalOptions where
  pauseImportFoldersSync := true
  pauseSubsSync := true
  pauseAllFileQueues := true

/-- Observable outcome of one _AddFile call. -/
structure AddFileOutcome where
  /-- HydrusPaths.MirrorFile was invoked on the source and destination paths. -/
  copyAttempted : Bool
  /-- The call raised an exception. -/
  raised : Bool
  /-- Number of _HandleCriticalDriveError invocations during the call. -/
  numCriticalDriveErrorCalls : Nat
  /-- The pause options after the call. -/
  options : GlobalOptions
  deriving DecidableEq, Repr

/-- ClientFilesManager._AddFile: free-space guard, then mirror copy, with the
critical-drive-error path on guard failure or copy failure. -/
def addFile (o : GlobalOptions) (destFreeSpace fileSize : Nat)
    (mirrorFileSucceeds : Bool) : AddFileOutcome :=
  if destFreeSpace < 100 * 1048576 ∨ destFreeSpace < fileSize then
    { copyAttempted := false
      raised := true
      numCriticalDriveErrorCalls := 1
      options := handleCriticalDriveError o }
  else if mirrorFileSucceeds then
    { copyAttempted := true
      raised := false
      numCriticalDriveErrorCalls := 0
      options := o }
  else
    { copyAttempted := true
      raised := true
      numCriticalDriveErrorCalls := 1
      options := handleCriticalDriveError o }

/-!
Model of ClientFilesManager.DeleteNeighbourDupes.

For a fixed hash, every candidate path inside the shard directory is
determined by the file extension alone, so the on-disk state relevant to the
call is a predicate on extensions.  Mimes and extensions are numbered; the
mime-to-extension table HC.mime_ext_lookup and the list HC.ALLOWED_MIMES are
parameters (they live outside this module).
-/

/-- The per-mime loop of DeleteNeighbourDupes.  Walks ALLOWED_MIMES, deleting the
hash's expected path for each mime other than the true one, re-checking existence
against the evolving disk state.  Returns the deleted extensions in order and the
final disk state. -/
def deleteNeighbourDupesLoop (mimeExt : Nat → Nat) (trueMime : Nat) :
    List Nat → (Nat → Bool) → List Nat × (Nat → Bool)
  | [], fs => ([], fs)
  | m :: rest, fs =>
    if m = trueMime then
      deleteNeighbourDupesLoop mimeExt trueMime rest fs
    else if mimeExt m = mimeExt trueMime then
      deleteNeighbourDupesLoop mimeExt trueMime rest fs
    else if fs (mimeExt m) then
      let r := deleteNeighbourDupesLoop mimeExt trueMime rest
        (fun e => if e = mimeExt m then false else fs e)
      (mimeExt m :: r.1, r.2)
    else
      deleteNeighbourDupesLoop mimeExt trueMime rest fs

/-- ClientFilesManager.DeleteNeighbourDupes: no-ops when the correct-mime file is
missing, else deletes the hash's expected paths for all other allowed mimes. -/
def deleteNeighbourDupes (allowedMimes : List Nat) (mimeExt : Nat → Nat)
    (trueMime : Nat) (fs : Nat → Bool) : List Nat × (Nat → Bool) :=
  if fs (mimeExt trueMime) then
    deleteNeighbourDupesLoop mimeExt trueMime allowedMimes fs
  else
    ([], fs)

/-!
Model of ClientFilesManager.GetFilePath (mime given) and _LookForFilePath.

For a fixed hash, every candidate path lives in the hash's 'f'-shard directory
and is determined by the file extension alone, so the relevant disk state is a
predicate on extensions plus the existence of the shard directory itself.
-/

/-- External state for path lookups of one hash. -/
structure FileLookupEnv where
  /-- HC.ALLOWED_MIMES, in scan order. -/
  allowedMimes : List Nat
  /-- HC.mime_ext_lookup. -/
  mimeExt : Nat → Nat
  /-- Whether the hash's path with a given extension exists in its shard directory. -/
  extOnDisk : Nat → Bool
  /-- Whether the hash's 'f'-shard directory itself exists. -/
  subdirOnDisk : Bool

/-- Result of a GetFilePath call: a returned path (its extension, plus the source
mime of a _ChangeFileExt repair if one ran), or one of the two failure kinds. -/
inductive GetFilePathResult where
  | ok (ext : Nat) (changedFromMime : Option Nat)
  | fileMissing
  | dirMissing
  deriving DecidableEq, Repr

/-- ClientFilesManager._LookForFilePath: scan every allowed mime's expected path,
returning the first mime whose path exists. -/
def lookForFilePath (env : FileLookupEnv) : Option Nat :=
  env.allowedMimes.find? fun m => env.extOnDisk (env.mimeExt m)

/-- ClientFilesManager.GetFilePath with a given mime: return the expected path; if it
is missing and checking is enabled, fall back to the extension scan, repairing a
mismatch through _ChangeFileExt, raising FileMissingException only when no variant
exists and DirectoryMissingException when the shard directory is absent. -/
def getFilePath (env : FileLookupEnv) (mime : Nat) (checkFileExists : Bool) :
    GetFilePathResult :=
  if checkFileExists && !env.extOnDisk (env.mimeExt mime) then
    match lookForFilePath env with
    | some oldMime => GetFilePathResult.ok (env.mimeExt mime) (some oldMime)
    | none =>
      if !env.subdirOnDisk then GetFilePathResult.dirMissing
      else GetFilePathResult.fileMissing
  else
    GetFilePathResult.ok (env.mimeExt mime) none

/-!
Model of ClientFilesManager._AttemptToHealMissingLocations.

Locations and shard names are numbered; the filesystem is a pair of predicates
(os.path.exists and os.path.isdir on a shard subdirectory of a location).
-/

/-- Candidate alternate locations for one missing (location, shard-name) pair: known
locations other than the missing one whose shard subdirectory exists and is a
directory, in scan order. -/
def potentialCorrectLocations (knownLocations : List Nat)
    (pathExists isDir : Nat → Nat → Bool) (missingLocation shard : Nat) : List Nat :=
  knownLocations.filter fun k => k ≠ missingLocation && pathExists k shard && isDir k shard

/-- The correct_rows accumulated by _AttemptToHealMissingLocations: one
(shard, location) fix per missing pair having exactly one candidate. -/
def healCorrectRows (knownLocations : List Nat) (pathExists isDir : Nat → Nat → Bool) :
    List (Nat × Nat) → List (Nat × Nat)
  | [] => []
  | (missingLocation, shard) :: rest =>
    match potentialCorrectLocations knownLocations pathExists isDir missingLocation shard with
    | [c] => (shard, c) :: healCorrectRows knownLocations pathExists isDir rest
    | _ => healCorrectRows knownLocations pathExists isDir rest

/-- The some_are_unhealable flag: a missing pair without exactly one candidate. -/
def healSomeAreUnhealable (knownLocations : List Nat)
    (pathExists isDir : Nat → Nat → Bool) : List (Nat × Nat) → Bool
  | [] => false
  | (missingLocation, shard) :: rest =>
    match potentialCorrectLocations knownLocations pathExists isDir missingLocation shard with
    | [_] => healSomeAreUnhealable knownLocations pathExists isDir rest
    | _ => true

/-- The repair_client_files batch writes issued by _AttemptToHealMissingLocations: a
single write holding every fix when any exist, and none otherwise. -/
def healRepairWrites (knownLocations : List Nat) (pathExists isDir : Nat → Nat → Bool)
    (missing : List (Nat × Nat)) : List (List (Nat × Nat)) :=
  if (healCorrectRows knownLocations pathExists isDir missing).length > 0 then
    [ healCorrectRows knownLocations pathExists isDir missing ]
  else
    []

/-- A concrete lookup environment: two allowed mimes with distinct extensions, the
file present under mime 1's extension only, shard directory present. -/
def extScanEnv : FileLookupEnv where
  allowedMimes := [ 0, 1 ]
  mimeExt := fun m => m
  extOnDisk := fun e => decide (e = 1)
  subdirOnDisk := true

/-!
Model of FilesMaintenanceManager._RunJob and the entry points that drive it
(RunJobImmediately, ForceMaintenance, MainLoopBackgroundWork).

A record is a hash plus the way its job body resolves when dispatched.  The
manager's mutable fields and its externally visible effects are collected in
MaintenanceState; the clearedJobs list holds every row handed to
file_maintenance_clear_jobs (the batched flushes inside the loop and the final
flush write exactly these rows).
-/

/-- How the try-block body of _RunJob resolves for one record. -/
inductive BodyOutcome where
  | success (additionalData : Option Nat)
  | shutdownEx
  | ioError
  | otherEx
  deriving DecidableEq, Repr

/-- One record of a maintenance batch. -/
structure RecordRun where
  hash : Nat
  outcome : BodyOutcome
  deriving DecidableEq, Repr

/-- Manager state and effect trace. -/
structure MaintenanceState where
  /-- The sticky _serious_error_encountered flag. -/
  seriousErrorEncountered : Bool
  /-- The _shutdown flag. -/
  shutdown : Bool
  /-- Total num_requests passed to _work_tracker.ReportRequestUsed. -/
  workUnitsReported : Nat
  /-- Rows handed to file_maintenance_clear_jobs (hash, job type, additional data). -/
  clearedJobs : List (Nat × RegenJob × Option Nat)
  /-- Hashes whose job body was dispatched, in order. -/
  attempted : List Nat
  /-- Number of HydrusData.ShowText calls. -/
  shownMessages : Nat
  deriving DecidableEq, Repr

/-- The all-clear initial manager state. -/
def initMaintenanceState : MaintenanceState where
  seriousErrorEncountered := false
  shutdown := false
  workUnitsReported := 0
  clearedJobs := []
  attempted := []
  shownMessages := 0

/-- The per-record loop of _RunJob.  The index i counts iterations so the
cancellation probe job_key.IsCancelled can vary over time.  Work is charged in the
finally block for every dispatched record; clear_job stays true except for
ShutdownException; IOError additionally sets the sticky flags and returns. -/
def runJobLoop (jobType : RegenJob) (cancelled : Nat → Bool) :
    List RecordRun → Nat → MaintenanceState → MaintenanceState
  | [], _, s => s
  | r :: rest, i, s =>
    if cancelled i || s.shutdown then s
    else
      let charged := s.workUnitsReported + regenFileEnumToJobWeightLookup jobType
      match r.outcome with
      | .success d =>
        runJobLoop jobType cancelled rest (i + 1)
          { s with workUnitsReported := charged
                   attempted := s.attempted ++ [ r.hash ]
                   clearedJobs := s.clearedJobs ++ [ (r.hash, jobType, d) ] }
      | .shutdownEx =>
        { s with workUnitsReported := charged
                 attempted := s.attempted ++ [ r.hash ] }
      | .ioError =>
        { s with workUnitsReported := charged
                 attempted := s.attempted ++ [ r.hash ]
                 clearedJobs := s.clearedJobs ++ [ (r.hash, jobType, none) ]
                 seriousErrorEncountered := true
                 shutdown := true
                 shownMessages := s.shownMessages + 1 }
      | .otherEx =>
        runJobLoop jobType cancelled rest (i + 1)
          { s with workUnitsReported := charged
                   attempted := s.attempted ++ [ r.hash ]
                   clearedJobs := s.clearedJobs ++ [ (r.hash, jobType, none) ]
                   shownMessages := s.shownMessages + 1 }

/-- FilesMaintenanceManager._RunJob: an immediate no-op when a serious error was
already encountered, else the per-record loop. -/
def runJob (jobType : RegenJob) (cancelled : Nat → Bool) (records : List RecordRun)
    (s : MaintenanceState) : MaintenanceState :=
  if s.seriousErrorEncountered then s
  else runJobLoop jobType cancelled records 0 s

/-- FilesMaintenanceManager.RunJobImmediately: with the sticky flag set and a
published job key it only shows an apology message; otherwise it runs _RunJob under
the lock (which itself respects the flag). -/
def runJobImmediately (jobType : RegenJob) (cancelled : Nat → Bool)
    (records : List RecordRun) (pubJobKey : Bool) (s : MaintenanceState) :
    MaintenanceState :=
  if s.seriousErrorEncountered && pubJobKey then
    { s with shownMessages := s.shownMessages + 1 }
  else
    runJob jobType cancelled records s

/-- FilesMaintenanceManager.ForceMaintenance: returns at once under the sticky flag,
else drains the queued jobs through _RunJob. -/
def forceMaintenance (cancelled : Nat → Bool)
    (jobs : List (List RecordRun × RegenJob)) (s : MaintenanceState) :
    MaintenanceState :=
  if s.seriousErrorEncountered then s
  else jobs.foldl (fun st job => runJob job.2 cancelled job.1 st) s

/-- The check_shutdown gate of MainLoopBackgroundWork: true when the loop raises
ShutdownException and unwinds. -/
def mainLoopHalted (s : MaintenanceState) : Bool :=
  s.shutdown || s.seriousErrorEncountered

/-- One iteration of MainLoopBackgroundWork's outer loop: exits through
check_shutdown when halted, else runs the pulled job one record at a time through
_RunJob, re-checking the gate before each record. -/
def mainLoopIteration (cancelled : Nat → Bool)
    (job : Option (List RecordRun × RegenJob)) (s : MaintenanceState) :
    MaintenanceState :=
  if mainLoopHalted s then s
  else
    match job with
    | none => s
    | some (records, jobType) =>
      records.foldl
        (fun st r => if mainLoopHalted st then st else runJob jobType cancelled [ r ] st) s

/-!
Model of ClientFilesManager._GetRebalanceTuple and the simulated move.

Locations are numbered.  The prefix-to-location map splits into the 256 'f'
prefixes (fmap) and the 256 't' prefixes (tmap), each indexed by the hex value
of the prefix.  The ideal-weight configuration read from
'ideal_client_files_locations' is a key list with a weight function and an
optional thumbnail override.  Python's float arithmetic is modelled in ℚ.

_GetRebalanceTuple itself is nondeterministic from this module's viewpoint:
the overweight/underweight pick follows the arbitrary iteration order of the
weight dictionary and the moved file prefix is drawn from a random shuffle, so
the model is a step relation containing every pick the code can make.
-/

/-- The prefix-to-location state: 'f'-shard and 't'-shard assignments. -/
@[ext]
structure ClientFilesState where
  fmap : Fin 256 → Nat
  tmap : Fin 256 → Nat

/-- Reassigning one 'f' prefix to a new location. -/
def moveFile (s : ClientFilesState) (p : Fin 256) (dst : Nat) : ClientFilesState :=
  { s with fmap := Function.update s.fmap p dst }

/-- Reassigning one 't' prefix to a new location. -/
def moveThumb (s : ClientFilesState) (p : Fin 256) (dst : Nat) : ClientFilesState :=
  { s with tmap := Function.update s.tmap p dst }

/-- The ideal_client_files_locations configuration. -/
structure RebalanceConfig where
  /-- Keys of locations_to_ideal_weights. -/
  idealLocs : List Nat
  /-- The configured weight of each ideal location. -/
  weight : Nat → ℚ
  /-- The optional thumbnail override location. -/
  thumbnailOverride : Option Nat

/-- Sum of the configured ideal weights. -/
def totalWeight (cfg : RebalanceConfig) : ℚ :=
  (cfg.idealLocs.map cfg.weight).sum

/-- Number of 'f' prefixes currently assigned to a location. -/
def shardCount (s : ClientFilesState) (loc : Nat) : ℕ :=
  (Finset.univ.filter fun i : Fin 256 => s.fmap i = loc).card

/-- Keys of current_locations_to_normalised_weights: locations holding at least one
'f' prefix. -/
def currentLocSet (s : ClientFilesState) : Finset Nat :=
  Finset.image s.fmap Finset.univ

/-- A location's current normalised weight (1/256 per assigned 'f' prefix). -/
def currentWeight (s : ClientFilesState) (loc : Nat) : ℚ :=
  shardCount s loc / 256

/-- A location's ideal normalised weight after the merge step: weight/total for
configured locations, 0 for locations present only in the current map. -/
def mergedIdealWeight (cfg : RebalanceConfig) (loc : Nat) : ℚ :=
  if loc ∈ cfg.idealLocs then cfg.weight loc / totalWeight cfg else 0

/-- Keys of ideal_locations_to_normalised_weights after the merge step. -/
def itemsSet (cfg : RebalanceConfig) (s : ClientFilesState) : Finset Nat :=
  cfg.idealLocs.toFinset ∪ currentLocSet s

/-- Membership in the overweight_locations list: a merged key, present in the current
map, whose current weight is at least the ideal weight plus one shard. -/
def overweightLoc (cfg : RebalanceConfig) (s : ClientFilesState) (loc : Nat) : Prop :=
  loc ∈ itemsSet cfg s ∧ 0 < shardCount s loc
    ∧ mergedIdealWeight cfg loc + 1 / 256 ≤ currentWeight s loc

/-- Membership in the underweight_locations list: a merged key that is either absent
from the current map or strictly below its ideal weight. -/
def underweightLoc (cfg : RebalanceConfig) (s : ClientFilesState) (loc : Nat) : Prop :=
  loc ∈ itemsSet cfg s
    ∧ (0 < shardCount s loc → currentWeight s loc < mergedIdealWeight cfg loc)

/-- The else-branch condition of _GetRebalanceTuple: the overweight and underweight
lists are not both nonempty. -/
def fileShardsBalanced (cfg : RebalanceConfig) (s : ClientFilesState) : Prop :=
  ¬((∃ loc, overweightLoc cfg s loc) ∧ (∃ loc, underweightLoc cfg s loc))

/-- The correct location of a 't' prefix: the matching 'f' prefix's location, unless
a thumbnail override is configured. -/
def thumbCorrectLocation (cfg : RebalanceConfig) (s : ClientFilesState)
    (p : Fin 256) : Nat :=
  match cfg.thumbnailOverride with
  | none => s.fmap p
  | some loc => loc

/-- One simulated move returned by _GetRebalanceTuple, as a relation covering every
dictionary order and every shuffle outcome: either an 'f' prefix moves from an
overweight location to an underweight one, or (when the two lists are not both
nonempty) a misplaced 't' prefix moves to its correct location. -/
inductive RebalanceStep (cfg : RebalanceConfig) :
    ClientFilesState → ClientFilesState → Prop where
  | fileMove (s : ClientFilesState) (p : Fin 256) (dst : Nat)
      (hover : overweightLoc cfg s (s.fmap p))
      (hunder : underweightLoc cfg s dst) :
      RebalanceStep cfg s (moveFile s p dst)
  | thumbMove (s : ClientFilesState) (p : Fin 256)
      (hbal : fileShardsBalanced cfg s)
      (hmismatch : s.tmap p ≠ thumbCorrectLocation cfg s p) :
      RebalanceStep cfg s (moveThumb s p (thumbCorrectLocation cfg s p))

/-- A run of n consecutive rebalance moves. -/
def StepChain (cfg : RebalanceConfig) (f : ℕ → ClientFilesState) (n : ℕ) : Prop :=
  ∀ i, i < n → RebalanceStep cfg (f i) (f (i + 1))

/-- The integer shard target of an ideal location: the least whole number of shards
at or above the ideal fraction of 256. -/
def ceilTarget (cfg : RebalanceConfig) (loc : Nat) : ℕ :=
  (Int.ceil (256 * cfg.weight loc / totalWeight cfg)).toNat

/-- The per-location shard target used by the file-phase measure. -/
def shardTarget (cfg : RebalanceConfig) (loc : Nat) : ℕ :=
  if loc ∈ cfg.idealLocs then ceilTarget cfg loc else 0

/-- File-phase measure: total shard surplus above the per-location targets. -/
def filePhi (cfg : RebalanceConfig) (s : ClientFilesState) : ℕ :=
  ∑ loc in currentLocSet s, (shardCount s loc - shardTarget cfg loc)

/-- Thumbnail-phase measure: number of misplaced 't' prefixes. -/
def thumbPhi (cfg : RebalanceConfig) (s : ClientFilesState) : ℕ :=
  (Finset.univ.filter fun p : Fin 256 => s.tmap p ≠ thumbCorrectLocation cfg s p).card

/-- A location's absolute deviation from its merged ideal weight. -/
def deviation (cfg : RebalanceConfig) (s : ClientFilesState) (loc : Nat) : ℚ :=
  |currentWeight s loc - mergedIdealWeight cfg loc|

/-- The maximum absolute deviation over the merged locations. -/
def maxDev (cfg : RebalanceConfig) (s : ClientFilesState) : ℚ :=
  (itemsSet cfg s).fold max 0 (deviation cfg s)

/-- Counterexample configuration: location 0 carries all the weight, location 1 is
configured with weight 0, location 2 is unconfigured but holds shards. -/
def cexCfg : RebalanceConfig where
  idealLocs := [0, 1]
  weight := fun loc => if loc = 0 then 1 else 0
  thumbnailOverride := none

/-- The 'f'-shard assignment after j moves of the counterexample run: shards drain
from location 2 to location 0 one at a time, each bouncing through the zero-weight
location 1. -/
def cexFmap (j : ℕ) : Fin 256 → Nat := fun i =>
  if j % 2 = 0 then
    (if (i : ℕ) < j / 2 then 0 else 2)
  else
    (if (i : ℕ) < j / 2 then 0 else if (i : ℕ) = j / 2 then 1 else 2)

/-- The counterexample run: 512 file moves followed by one thumbnail move. -/
def cexState (j : ℕ) : ClientFilesState :=
  if j ≤ 512 then
    { fmap := cexFmap j, tmap := fun _ => 2 }
  else
    { fmap := cexFmap 512, tmap := Function.update (fun _ => 2) (0 : Fin 256) 0 }

/-- A one-location configuration used to instantiate the rebalance theorems. -/
def unitCfg : RebalanceConfig where
  idealLocs := [ 0 ]
  weight := fun _ => 1
  thumbnailOverride := none

/-- The state with every shard at location 0. -/
def zeroState : ClientFilesState where
  fmap := fun _ => 0
  tmap := fun _ => 0

end HydrusFiles

namespace HydrusFiles

open RegenJob

/-- C1: for the job kind "presence, try URL else remove record" on a record whose file
is missing: with at least one useful URL, tryRedownload holds, deleteRecord does not,
every useful URL is dispatched, the hash is logged, and no content-delete update is
issued; with zero URLs, tryRedownload fails, deleteRecord holds, and both a DELETE and
a CLEAR_DELETE_RECORD update are issued. -/
theorem checkFileIntegrity_presence_try_url_else_remove_record (env : IntegrityEnv)
    (hmiss : env.getFilePathMissing = true) :
    (usefulUrls env ≠ [] →
      (checkFileIntegrity integrityPresenceTryUrlElseRemoveRecord env).tryRedownload = true
      ∧ (checkFileIntegrity integrityPresenceTryUrlElseRemoveRecord env).deleteRecord = false
      ∧ (checkFileIntegrity integrityPresenceTryUrlElseRemoveRecord env).dispatchedUrls
          = usefulUrls env
      ∧ (checkFileIntegrity integrityPresenceTryUrlElseRemoveRecord env).loggedHashToMissingLog
          = true
      ∧ (checkFileIntegrity integrityPresenceTryUrlElseRemoveRecord env).contentUpdates = [])
    ∧ (env.urls = [] →
      (checkFileIntegrity integrityPresenceTryUrlElseRemoveRecord env).tryRedownload = false
      ∧ (checkFileIntegrity integrityPresenceTryUrlElseRemoveRecord env).deleteRecord = true
      ∧ (checkFileIntegrity integrityPresenceTryUrlElseRemoveRecord env).contentUpdates
          = [ ContentUpdate.delete, ContentUpdate.clearDeleteRecord ]) := by
  constructor
  · intro huseful
    have hlen : 0 < (usefulUrls env).length := List.length_pos.mpr huseful
    simp [checkFileIntegrity, hmiss, hlen]
  · intro hurls
    have huseful : usefulUrls env = [] := by simp [usefulUrls, hurls]
    simp [checkFileIntegrity, hmiss, huseful]

/-- Witness for the C1 theorem at the concrete environment postUrlsEnv. -/
theorem checkFileIntegrity_presence_try_url_else_remove_record_witness :
    postUrlsEnv.getFilePathMissing = true
    ∧ ((usefulUrls postUrlsEnv ≠ [] →
        (checkFileIntegrity integrityPresenceTryUrlElseRemoveRecord postUrlsEnv).tryRedownload = true
        ∧ (checkFileIntegrity integrityPresenceTryUrlElseRemoveRecord postUrlsEnv).deleteRecord = false
        ∧ (checkFileIntegrity integrityPresenceTryUrlElseRemoveRecord postUrlsEnv).dispatchedUrls
            = usefulUrls postUrlsEnv
        ∧ (checkFileIntegrity integrityPresenceTryUrlElseRemoveRecord postUrlsEnv).loggedHashToMissingLog
            = true
        ∧ (checkFileIntegrity integrityPresenceTryUrlElseRemoveRecord postUrlsEnv).contentUpdates = [])
      ∧ (postUrlsEnv.urls = [] →
        (checkFileIntegrity integrityPresenceTryUrlElseRemoveRecord postUrlsEnv).tryRedownload = false
        ∧ (checkFileIntegrity integrityPresenceTryUrlElseRemoveRecord postUrlsEnv).deleteRecord = true
        ∧ (checkFileIntegrity integrityPresenceTryUrlElseRemoveRecord postUrlsEnv).contentUpdates
            = [ ContentUpdate.delete, ContentUpdate.clearDeleteRecord ])) :=
  ⟨rfl, checkFileIntegrity_presence_try_url_else_remove_record postUrlsEnv rfl⟩

/-- C6: when the destination location's reported free space is below the 100MB floor
or below the incoming file's size, AddFile performs no copy, raises, and triggers the
global-pause side effect (pausing import folders, subscriptions and file queues)
exactly once. -/
theorem addFile_free_space_guard (o : GlobalOptions) (destFreeSpace fileSize : Nat)
    (mirror : Bool) (h : destFreeSpace < 100 * 1048576 ∨ destFreeSpace < fileSize) :
    (addFile o destFreeSpace fileSize mirror).copyAttempted = false
    ∧ (addFile o destFreeSpace fileSize mirror).raised = true
    ∧ (addFile o destFreeSpace fileSize mirror).numCriticalDriveErrorCalls = 1
    ∧ (addFile o destFreeSpace fileSize mirror).options
        = { pauseImportFoldersSync := true, pauseSubsSync := true,
            pauseAllFileQueues := true } := by
  simp [addFile, h, handleCriticalDriveError]

/-- Witness for the C6 theorem: zero free space, a 5-byte file. -/
theorem addFile_free_space_guard_witness :
    ((0 : Nat) < 100 * 1048576 ∨ (0 : Nat) < 5)
    ∧ ((addFile ⟨false, false, false⟩ 0 5 true).copyAttempted = false
      ∧ (addFile ⟨false, false, false⟩ 0 5 true).raised = true
      ∧ (addFile ⟨false, false, false⟩ 0 5 true).numCriticalDriveErrorCalls = 1
      ∧ (addFile ⟨false, false, false⟩ 0 5 true).options
          = { pauseImportFoldersSync := true, pauseSubsSync := true,
              pauseAllFileQueues := true }) :=
  ⟨Or.inl (by decide), addFile_free_space_guard ⟨false, false, false⟩ 0 5 true
    (Or.inl (by decide))⟩

/-- The neighbour-dupe loop never deletes the true mime's extension path. -/
theorem deleteNeighbourDupesLoop_ne_true_ext (mimeExt : Nat → Nat) (trueMime : Nat) :
    ∀ (mimes : List Nat) (fs : Nat → Bool),
      mimeExt trueMime ∉ (deleteNeighbourDupesLoop mimeExt trueMime mimes fs).1 := by
  intro mimes
  induction mimes with
  | nil => intro fs; simp [deleteNeighbourDupesLoop]
  | cons m rest ih =>
    intro fs
    by_cases h1 : m = trueMime
    · simpa [deleteNeighbourDupesLoop, h1] using ih fs
    · by_cases h2 : mimeExt m = mimeExt trueMime
      · simpa [deleteNeighbourDupesLoop, h1, h2] using ih fs
      · by_cases h3 : fs (mimeExt m)
        · simp only [deleteNeighbourDupesLoop, if_neg h1, if_neg h2, if_pos h3]
          intro hmem
          rcases List.mem_cons.mp hmem with heq | hmem'
          · exact h2 heq.symm
          · exact ih _ hmem'
        · simpa [deleteNeighbourDupesLoop, h1, h2, h3] using ih fs

/-- The neighbour-dupe loop leaves the true mime's extension path untouched on disk. -/
theorem deleteNeighbourDupesLoop_fs_true_ext (mimeExt : Nat → Nat) (trueMime : Nat) :
    ∀ (mimes : List Nat) (fs : Nat → Bool),
      (deleteNeighbourDupesLoop mimeExt trueMime mimes fs).2 (mimeExt trueMime)
        = fs (mimeExt trueMime) := by
  intro mimes
  induction mimes with
  | nil => intro fs; simp [deleteNeighbourDupesLoop]
  | cons m rest ih =>
    intro fs
    by_cases h1 : m = trueMime
    · simpa [deleteNeighbourDupesLoop, h1] using ih fs
    · by_cases h2 : mimeExt m = mimeExt trueMime
      · simpa [deleteNeighbourDupesLoop, h1, h2] using ih fs
      · by_cases h3 : fs (mimeExt m)
        · simp only [deleteNeighbourDupesLoop, if_neg h1, if_neg h2, if_pos h3]
          rw [ih]
          simp [Ne.symm h2]
        · simpa [deleteNeighbourDupesLoop, h1, h2, h3] using ih fs

/-- Every extension the neighbour-dupe loop deletes belongs to some listed mime other
than the true one. -/
theorem deleteNeighbourDupesLoop_sources (mimeExt : Nat → Nat) (trueMime : Nat) :
    ∀ (mimes : List Nat) (fs : Nat → Bool),
      ∀ e ∈ (deleteNeighbourDupesLoop mimeExt trueMime mimes fs).1,
        ∃ m, m ∈ mimes ∧ m ≠ trueMime ∧ mimeExt m = e := by
  intro mimes
  induction mimes with
  | nil => intro fs e he; simp [deleteNeighbourDupesLoop] at he
  | cons m rest ih =>
    intro fs e he
    by_cases h1 : m = trueMime
    · simp only [deleteNeighbourDupesLoop, if_pos h1] at he
      obtain ⟨m', hm', hne, hext⟩ := ih fs e he
      exact ⟨m', List.mem_cons_of_mem _ hm', hne, hext⟩
    · by_cases h2 : mimeExt m = mimeExt trueMime
      · simp only [deleteNeighbourDupesLoop, if_neg h1, if_pos h2] at he
        obtain ⟨m', hm', hne, hext⟩ := ih fs e he
        exact ⟨m', List.mem_cons_of_mem _ hm', hne, hext⟩
      · by_cases h3 : fs (mimeExt m)
        · simp only [deleteNeighbourDupesLoop, if_neg h1, if_neg h2, if_pos h3] at he
          rcases List.mem_cons.mp he with heq | hmem'
          · exact ⟨m, List.mem_cons_self _ _, h1, heq.symm⟩
          · obtain ⟨m', hm', hne, hext⟩ := ih _ e hmem'
            exact ⟨m', List.mem_cons_of_mem _ hm', hne, hext⟩
        · simp only [deleteNeighbourDupesLoop, if_neg h1, if_neg h2, if_neg h3] at he
          obtain ⟨m', hm', hne, hext⟩ := ih fs e he
          exact ⟨m', List.mem_cons_of_mem _ hm', hne, hext⟩

/-- C8: DeleteNeighbourDupes never deletes or modifies the file at the hash's expected
path for the true mime, deletes only the same hash's expected paths for other allowed
mimes, and deletes nothing when the correct-mime file is missing. -/
theorem deleteNeighbourDupes_safety (allowedMimes : List Nat) (mimeExt : Nat → Nat)
    (trueMime : Nat) (fs : Nat → Bool) :
    mimeExt trueMime ∉ (deleteNeighbourDupes allowedMimes mimeExt trueMime fs).1
    ∧ (deleteNeighbourDupes allowedMimes mimeExt trueMime fs).2 (mimeExt trueMime)
        = fs (mimeExt trueMime)
    ∧ (∀ e ∈ (deleteNeighbourDupes allowedMimes mimeExt trueMime fs).1,
        ∃ m, m ∈ allowedMimes ∧ m ≠ trueMime ∧ mimeExt m = e)
    ∧ (fs (mimeExt trueMime) = false →
        (deleteNeighbourDupes allowedMimes mimeExt trueMime fs).1 = []) := by
  by_cases hcorrect : fs (mimeExt trueMime)
  · refine ⟨?_, ?_, ?_, ?_⟩
    · simpa [deleteNeighbourDupes, hcorrect] using
        deleteNeighbourDupesLoop_ne_true_ext mimeExt trueMime allowedMimes fs
    · simpa [deleteNeighbourDupes, hcorrect] using
        deleteNeighbourDupesLoop_fs_true_ext mimeExt trueMime allowedMimes fs
    · simpa [deleteNeighbourDupes, hcorrect] using
        deleteNeighbourDupesLoop_sources mimeExt trueMime allowedMimes fs
    · intro hfalse
      rw [hcorrect] at hfalse
      cases hfalse
  · simp [deleteNeighbourDupes, hcorrect]

/-- Witness for the C8 theorem at concrete mimes and disk state. -/
theorem deleteNeighbourDupes_safety_witness :
    (fun e => decide (e ≤ 2)) (( fun m => m + 10 ) 1 ) = false
    ∧ 11 ∉ (deleteNeighbourDupes [ 0, 1, 2 ] (fun m => m + 10) 1 (fun e => decide (e ≤ 2))).1 :=
  ⟨by decide, (deleteNeighbourDupes_safety [ 0, 1, 2 ] (fun m => m + 10) 1
    (fun e => decide (e ≤ 2))).1⟩

/-- C7: with a mime given, existence checking enabled and the expected path missing,
GetFilePath repairs an extension mismatch through _ChangeFileExt and returns the
corrected path whenever some allowed mime's variant exists, raises
FileMissingException only when no extension variant exists, and raises
DirectoryMissingException (never FileMissingException) when the shard directory is
absent. -/
theorem getFilePath_missing_taxonomy (env : FileLookupEnv) (mime : Nat)
    (hcoh : env.subdirOnDisk = false → ∀ e, env.extOnDisk e = false)
    (hmiss : env.extOnDisk (env.mimeExt mime) = false) :
    ((∃ m, m ∈ env.allowedMimes ∧ env.extOnDisk (env.mimeExt m) = true) →
      ∃ oldMime, lookForFilePath env = some oldMime
        ∧ getFilePath env mime true = GetFilePathResult.ok (env.mimeExt mime) (some oldMime))
    ∧ (getFilePath env mime true = GetFilePathResult.fileMissing →
      ∀ m ∈ env.allowedMimes, env.extOnDisk (env.mimeExt m) = false)
    ∧ (env.subdirOnDisk = false →
      getFilePath env mime true = GetFilePathResult.dirMissing) := by
  refine ⟨?_, ?_, ?_⟩
  · rintro ⟨m, hm, hdisk⟩
    have hsome : (lookForFilePath env).isSome := by
      rw [lookForFilePath, List.find?_isSome]
      exact ⟨m, hm, by simpa using hdisk⟩
    obtain ⟨oldMime, hold⟩ := Option.isSome_iff_exists.mp hsome
    exact ⟨oldMime, hold, by simp [getFilePath, hmiss, hold]⟩
  · intro hres m hm
    cases hfind : lookForFilePath env with
    | some oldMime => simp [getFilePath, hmiss, hfind] at hres
    | none =>
      have := List.find?_eq_none.mp hfind m hm
      simpa using this
  · intro hsub
    have hfind : lookForFilePath env = none := by
      rw [lookForFilePath, List.find?_eq_none]
      intro m _
      simp [hcoh hsub]
    simp [getFilePath, hmiss, hfind, hsub]

/-- Witness for the C7 theorem at the concrete environment extScanEnv with requested
mime 0. -/
theorem getFilePath_missing_taxonomy_witness :
    (extScanEnv.subdirOnDisk = false → ∀ e, extScanEnv.extOnDisk e = false)
    ∧ extScanEnv.extOnDisk (extScanEnv.mimeExt 0) = false
    ∧ (((∃ m, m ∈ extScanEnv.allowedMimes ∧ extScanEnv.extOnDisk (extScanEnv.mimeExt m) = true) →
        ∃ oldMime, lookForFilePath extScanEnv = some oldMime
          ∧ getFilePath extScanEnv 0 true
              = GetFilePathResult.ok (extScanEnv.mimeExt 0) (some oldMime))
      ∧ (getFilePath extScanEnv 0 true = GetFilePathResult.fileMissing →
        ∀ m ∈ extScanEnv.allowedMimes, extScanEnv.extOnDisk (extScanEnv.mimeExt m) = false)
      ∧ (extScanEnv.subdirOnDisk = false →
        getFilePath extScanEnv 0 true = GetFilePathResult.dirMissing)) :=
  ⟨fun h => absurd h (by decide), rfl,
    getFilePath_missing_taxonomy extScanEnv 0 (fun h => absurd h (by decide)) rfl⟩

/-- Every shard fixed by healCorrectRows came from some missing pair. -/
theorem healCorrectRows_shard_mem (knownLocations : List Nat)
    (pathExists isDir : Nat → Nat → Bool) :
    ∀ (missing : List (Nat × Nat)) (shard c : Nat),
      (shard, c) ∈ healCorrectRows knownLocations pathExists isDir missing →
      shard ∈ missing.map Prod.snd := by
  intro missing
  induction missing with
  | nil => intro shard c h; simp [healCorrectRows] at h
  | cons row rest ih =>
    intro shard c h
    obtain ⟨ml0, s0⟩ := row
    rw [healCorrectRows] at h
    rcases hp : potentialCorrectLocations knownLocations pathExists isDir ml0 s0 with
      _ | ⟨c0, _ | ⟨c1, cs⟩⟩
    all_goals rw [hp] at h
    · exact List.mem_cons_of_mem _ (ih shard c h)
    · rcases List.mem_cons.mp h with heq | hmem
      · simp [Prod.ext_iff] at heq
        simp [heq.1]
      · exact List.mem_cons_of_mem _ (ih shard c hmem)
    · exact List.mem_cons_of_mem _ (ih shard c h)

/-- C5: assuming each missing pair concerns a distinct shard, the health checker
proposes a remapping fix for a missing (location, shard) pair exactly when one single
known location other than the missing one holds an existing directory of that shard's
name; with zero or several candidates the pair is left unresolved; and all unambiguous
fixes go out in a single batch write. -/
theorem attemptToHeal_uniqueness (knownLocations : List Nat)
    (pathExists isDir : Nat → Nat → Bool) (missing : List (Nat × Nat))
    (hnodup : (missing.map Prod.snd).Nodup) :
    (∀ ml shard, (ml, shard) ∈ missing →
      ∀ c, ((shard, c) ∈ healCorrectRows knownLocations pathExists isDir missing
        ↔ potentialCorrectLocations knownLocations pathExists isDir ml shard = [c]))
    ∧ (healRepairWrites knownLocations pathExists isDir missing).length ≤ 1
    ∧ (∀ w ∈ healRepairWrites knownLocations pathExists isDir missing,
        w = healCorrectRows knownLocations pathExists isDir missing) := by
  refine ⟨?_, ?_, ?_⟩
  · induction missing with
    | nil => intro ml shard h; simp at h
    | cons row rest ih =>
      obtain ⟨ml0, s0⟩ := row
      rw [List.map_cons, List.nodup_cons] at hnodup
      obtain ⟨hs0, hrest⟩ := hnodup
      intro ml shard hmem c
      rcases List.mem_cons.mp hmem with heq | hmemrest
      · obtain ⟨h1, h2⟩ := Prod.ext_iff.mp heq
        dsimp only at h1 h2
        subst h1
        subst h2
        rw [healCorrectRows]
        rcases hp : potentialCorrectLocations knownLocations pathExists isDir ml shard with
          _ | ⟨c0, _ | ⟨c1, cs⟩⟩
        · simp only
          constructor
          · intro h
            exact absurd (healCorrectRows_shard_mem _ _ _ rest shard c h) hs0
          · intro h
            simp [hp] at h
        · simp only
          constructor
          · intro h
            rcases List.mem_cons.mp h with heq2 | hmem2
            · obtain ⟨_, h2⟩ := Prod.ext_iff.mp heq2
              dsimp only at h2
              rw [h2]
            · exact absurd (healCorrectRows_shard_mem _ _ _ rest shard c hmem2) hs0
          · intro h
            have hc : c0 = c := by simpa using h
            subst hc
            exact List.mem_cons_self _ _
        · simp only
          constructor
          · intro h
            exact absurd (healCorrectRows_shard_mem _ _ _ rest shard c h) hs0
          · intro h
            simp [hp] at h
      · have hshard : shard ∈ rest.map Prod.snd := by
          exact List.mem_map.mpr ⟨(ml, shard), hmemrest, rfl⟩
        have hne : shard ≠ s0 := fun h => hs0 (h ▸ hshard)
        rw [healCorrectRows]
        rcases hp : potentialCorrectLocations knownLocations pathExists isDir ml0 s0 with
          _ | ⟨c0, _ | ⟨c1, cs⟩⟩
        · exact ih hrest ml shard hmemrest c
        · simp only
          rw [List.mem_cons]
          constructor
          · intro h
            rcases h with heq2 | hmem2
            · obtain ⟨h1, _⟩ := Prod.ext_iff.mp heq2
              dsimp only at h1
              exact absurd h1 hne
            · exact (ih hrest ml shard hmemrest c).mp hmem2
          · intro h
            exact Or.inr ((ih hrest ml shard hmemrest c).mpr h)
        · exact ih hrest ml shard hmemrest c
  · rw [healRepairWrites]
    split
    · simp
    · simp
  · intro w hw
    rw [healRepairWrites] at hw
    split at hw
    · simpa using hw
    · simp at hw

/-- Witness for the C5 theorem: one missing pair whose shard directory exists at
exactly one other known location. -/
theorem attemptToHeal_uniqueness_witness :
    (((([ (0, 7) ] : List (Nat × Nat)).map Prod.snd).Nodup)
    ∧ (7, 1) ∈ healCorrectRows [ 0, 1, 2 ] (fun k _ => decide (k = 1))
        (fun k _ => decide (k = 1)) [ (0, 7) ]) := by
  constructor
  · decide
  · have h := (attemptToHeal_uniqueness [ 0, 1, 2 ] (fun k _ => decide (k = 1))
      (fun k _ => decide (k = 1)) [ (0, 7) ] (by decide)).1 0 7 (by decide) 1
    exact h.mpr (by decide)

/-- Rows already in clearedJobs stay there as the per-record loop proceeds. -/
theorem runJobLoop_clearedJobs_mono (jobType : RegenJob) (cancelled : Nat → Bool) :
    ∀ (l : List RecordRun) (i : Nat) (s : MaintenanceState)
      (x : Nat × RegenJob × Option Nat),
      x ∈ s.clearedJobs → x ∈ (runJobLoop jobType cancelled l i s).clearedJobs := by
  intro l
  induction l with
  | nil => intro i s x hx; simpa [runJobLoop] using hx
  | cons r rest ih =>
    intro i s x hx
    obtain ⟨h, o⟩ := r
    rw [runJobLoop]
    by_cases hc : (cancelled i || s.shutdown) = true
    · rw [if_pos hc]; exact hx
    · rw [if_neg hc]
      cases o with
      | success d => exact ih _ _ x (List.mem_append_left _ hx)
      | shutdownEx => exact hx
      | ioError => exact List.mem_append_left _ hx
      | otherEx => exact ih _ _ x (List.mem_append_left _ hx)

/-- C2 counterexample: in a concrete two-record batch whose first job body raises an
unexpected exception, the first record's job IS cleared to the external queue,
contrary to the claim that it is left un-cleared for a retry. -/
theorem runJob_otherEx_cleared_counterexample :
    (1, RegenJob.fileMetadata, (none : Option Nat)) ∈
      (runJob RegenJob.fileMetadata (fun _ => false)
        [ ⟨1, BodyOutcome.otherEx⟩, ⟨2, BodyOutcome.success none⟩ ]
        initMaintenanceState).clearedJobs := by
  decide

/-- C2 amended: when a job body raises an unexpected exception on one record, the
runner surfaces a message and continues with the next record, and the job for that
record is cleared to the external queue (it will not be reattempted). -/
theorem runJobLoop_otherEx_continues (jobType : RegenJob) (cancelled : Nat → Bool)
    (h : Nat) (rest : List RecordRun) (i : Nat) (s : MaintenanceState)
    (hcancel : cancelled i = false) (hshut : s.shutdown = false) :
    runJobLoop jobType cancelled (⟨h, BodyOutcome.otherEx⟩ :: rest) i s
      = runJobLoop jobType cancelled rest (i + 1)
          { s with workUnitsReported :=
                     s.workUnitsReported + regenFileEnumToJobWeightLookup jobType
                   attempted := s.attempted ++ [ h ]
                   clearedJobs := s.clearedJobs ++ [ (h, jobType, none) ]
                   shownMessages := s.shownMessages + 1 }
    ∧ (h, jobType, (none : Option Nat)) ∈
        (runJobLoop jobType cancelled (⟨h, BodyOutcome.otherEx⟩ :: rest) i s).clearedJobs := by
  have heq : runJobLoop jobType cancelled (⟨h, BodyOutcome.otherEx⟩ :: rest) i s
      = runJobLoop jobType cancelled rest (i + 1)
          { s with workUnitsReported :=
                     s.workUnitsReported + regenFileEnumToJobWeightLookup jobType
                   attempted := s.attempted ++ [ h ]
                   clearedJobs := s.clearedJobs ++ [ (h, jobType, none) ]
                   shownMessages := s.shownMessages + 1 } := by
    rw [runJobLoop]
    simp [hcancel, hshut]
  refine ⟨heq, ?_⟩
  rw [heq]
  exact runJobLoop_clearedJobs_mono jobType cancelled rest (i + 1) _ _
    (List.mem_append_right _ (List.mem_singleton.mpr rfl))

/-- Witness for the amended C2 theorem at a concrete one-record batch. -/
theorem runJobLoop_otherEx_continues_witness :
    ((fun _ => false) 0 = false ∧ initMaintenanceState.shutdown = false)
    ∧ (runJobLoop RegenJob.fileMetadata (fun _ => false)
          [ ⟨1, BodyOutcome.otherEx⟩ ] 0 initMaintenanceState
        = runJobLoop RegenJob.fileMetadata (fun _ => false) [] 1
            { initMaintenanceState with
                workUnitsReported :=
                  initMaintenanceState.workUnitsReported
                    + regenFileEnumToJobWeightLookup RegenJob.fileMetadata
                attempted := initMaintenanceState.attempted ++ [ 1 ]
                clearedJobs := initMaintenanceState.clearedJobs
                  ++ [ (1, RegenJob.fileMetadata, none) ]
                shownMessages := initMaintenanceState.shownMessages + 1 }
      ∧ (1, RegenJob.fileMetadata, (none : Option Nat)) ∈
          (runJobLoop RegenJob.fileMetadata (fun _ => false)
            [ ⟨1, BodyOutcome.otherEx⟩ ] 0 initMaintenanceState).clearedJobs) :=
  ⟨⟨rfl, rfl⟩, runJobLoop_otherEx_continues RegenJob.fileMetadata (fun _ => false)
    1 [] 0 initMaintenanceState rfl rfl⟩

/-- C3: an I/O error in a job body halts the batch at that record (no later record is
dispatched), sets the sticky serious-error flag, and once the flag is set,
RunJobImmediately, ForceMaintenance and the background-loop iteration perform no
maintenance work. -/
theorem runJob_ioError_halts_and_disables (jobType : RegenJob) (cancelled : Nat → Bool)
    (h : Nat) (rest : List RecordRun) (i : Nat) (s : MaintenanceState)
    (hcancel : cancelled i = false) (hshut : s.shutdown = false) :
    (runJobLoop jobType cancelled (⟨h, BodyOutcome.ioError⟩ :: rest) i s).attempted
        = s.attempted ++ [ h ]
    ∧ (runJobLoop jobType cancelled
        (⟨h, BodyOutcome.ioError⟩ :: rest) i s).seriousErrorEncountered = true
    ∧ (∀ s' : MaintenanceState, s'.seriousErrorEncountered = true →
        (∀ (jt : RegenJob) (c : Nat → Bool) (recs : List RecordRun) (pub : Bool),
          (runJobImmediately jt c recs pub s').attempted = s'.attempted
          ∧ (runJobImmediately jt c recs pub s').clearedJobs = s'.clearedJobs
          ∧ (runJobImmediately jt c recs pub s').workUnitsReported = s'.workUnitsReported)
        ∧ (∀ (c : Nat → Bool) (jobs : List (List RecordRun × RegenJob)),
            forceMaintenance c jobs s' = s')
        ∧ (∀ (c : Nat → Bool) (job : Option (List RecordRun × RegenJob)),
            mainLoopIteration c job s' = s')) := by
  refine ⟨?_, ?_, ?_⟩
  · rw [runJobLoop]
    simp [hcancel, hshut]
  · rw [runJobLoop]
    simp [hcancel, hshut]
  · intro s' hs'
    refine ⟨?_, ?_, ?_⟩
    · intro jt c recs pub
      rw [runJobImmediately]
      by_cases hpub : pub
      · rw [if_pos (by simp [hs', hpub])]
        exact ⟨rfl, rfl, rfl⟩
      · rw [if_neg (by simp [hpub]), runJob, if_pos hs']
        exact ⟨rfl, rfl, rfl⟩
    · intro c jobs
      rw [forceMaintenance, if_pos hs']
    · intro c job
      unfold mainLoopIteration
      rw [if_pos (by simp [mainLoopHalted, hs'])]

/-- Witness for the C3 theorem at a concrete one-record batch. -/
theorem runJob_ioError_halts_and_disables_witness :
    ((fun _ => false) 0 = false ∧ initMaintenanceState.shutdown = false)
    ∧ (runJobLoop RegenJob.pixelHash (fun _ => false)
          [ ⟨3, BodyOutcome.ioError⟩, ⟨4, BodyOutcome.success none⟩ ] 0
          initMaintenanceState).attempted = initMaintenanceState.attempted ++ [ 3 ]
    ∧ (runJobLoop RegenJob.pixelHash (fun _ => false)
          [ ⟨3, BodyOutcome.ioError⟩, ⟨4, BodyOutcome.success none⟩ ] 0
          initMaintenanceState).seriousErrorEncountered = true :=
  ⟨⟨rfl, rfl⟩,
    (runJob_ioError_halts_and_disables RegenJob.pixelHash (fun _ => false) 3
      [ ⟨4, BodyOutcome.success none⟩ ] 0 initMaintenanceState rfl rfl).1,
    (runJob_ioError_halts_and_disables RegenJob.pixelHash (fun _ => false) 3
      [ ⟨4, BodyOutcome.success none⟩ ] 0 initMaintenanceState rfl rfl).2.1⟩

/-- The per-record loop charges the tracker the job kind's weight once per record it
dispatches. -/
theorem runJobLoop_work_accounting (jobType : RegenJob) (cancelled : Nat → Bool) :
    ∀ (l : List RecordRun) (i : Nat) (s : MaintenanceState),
      ∃ t : List Nat,
        (runJobLoop jobType cancelled l i s).attempted = s.attempted ++ t
        ∧ (runJobLoop jobType cancelled l i s).workUnitsReported
            = s.workUnitsReported + regenFileEnumToJobWeightLookup jobType * t.length := by
  intro l
  induction l with
  | nil => intro i s; exact ⟨[], by simp [runJobLoop], by simp [runJobLoop]⟩
  | cons r rest ih =>
    intro i s
    obtain ⟨h, o⟩ := r
    rw [runJobLoop]
    by_cases hc : (cancelled i || s.shutdown) = true
    · rw [if_pos hc]
      exact ⟨[], by simp, by simp⟩
    · rw [if_neg hc]
      cases o with
      | success d =>
        obtain ⟨t, ht1, ht2⟩ := ih (i + 1)
          { s with workUnitsReported :=
                     s.workUnitsReported + regenFileEnumToJobWeightLookup jobType
                   attempted := s.attempted ++ [ h ]
                   clearedJobs := s.clearedJobs ++ [ (h, jobType, d) ] }
        refine ⟨h :: t, ?_, ?_⟩
        · rw [ht1]; simp
        · rw [ht2]; simp only [List.length_cons]; ring
      | shutdownEx =>
        exact ⟨[ h ], by simp, by simp⟩
      | ioError =>
        exact ⟨[ h ], by simp, by simp⟩
      | otherEx =>
        obtain ⟨t, ht1, ht2⟩ := ih (i + 1)
          { s with workUnitsReported :=
                     s.workUnitsReported + regenFileEnumToJobWeightLookup jobType
                   attempted := s.attempted ++ [ h ]
                   clearedJobs := s.clearedJobs ++ [ (h, jobType, none) ]
                   shownMessages := s.shownMessages + 1 }
        refine ⟨h :: t, ?_, ?_⟩
        · rw [ht1]; simp
        · rw [ht2]; simp only [List.length_cons]; ring

/-- C10: for every record the runner dispatches (those not skipped by the per-record
cancellation check), the work tracker is charged exactly the job kind's static weight,
regardless of the body's outcome. -/
theorem runJob_work_accounting (jobType : RegenJob) (cancelled : Nat → Bool)
    (records : List RecordRun) (s : MaintenanceState) :
    ∃ t : List Nat,
      (runJob jobType cancelled records s).attempted = s.attempted ++ t
      ∧ (runJob jobType cancelled records s).workUnitsReported
          = s.workUnitsReported + regenFileEnumToJobWeightLookup jobType * t.length := by
  rw [runJob]
  by_cases hs : s.seriousErrorEncountered = true
  · rw [if_pos hs]
    exact ⟨[], by simp, by simp⟩
  · rw [if_neg hs]
    exact runJobLoop_work_accounting jobType cancelled records 0 s

/-- C9: in the static overrule table, FORCE_THUMBNAIL overrules REFIT_THUMBNAIL; the
declared overrule relation is transitively closed (if A overrules B and B overrules C
then A overrules C); and each file-integrity "try url else remove record" variant's
overrule set contains its component sub-checks (log-only, try-url-only,
remove-record-only). -/
theorem overruled_jobs_transitively_closed :
    refitThumbnail ∈ regenFileEnumToOverruledJobs forceThumbnail
    ∧ (∀ a b c : RegenJob,
        b ∈ regenFileEnumToOverruledJobs a →
        c ∈ regenFileEnumToOverruledJobs b →
        c ∈ regenFileEnumToOverruledJobs a)
    ∧ (integrityPresenceLogOnly ∈ regenFileEnumToOverruledJobs integrityPresenceTryUrlElseRemoveRecord
        ∧ integrityPresenceTryUrl ∈ regenFileEnumToOverruledJobs integrityPresenceTryUrlElseRemoveRecord
        ∧ integrityPresenceRemoveRecord ∈ regenFileEnumToOverruledJobs integrityPresenceTryUrlElseRemoveRecord)
    ∧ (integrityPresenceLogOnly ∈ regenFileEnumToOverruledJobs integrityDataTryUrlElseRemoveRecord
        ∧ integrityPresenceTryUrl ∈ regenFileEnumToOverruledJobs integrityDataTryUrlElseRemoveRecord
        ∧ integrityPresenceRemoveRecord ∈ regenFileEnumToOverruledJobs integrityDataTryUrlElseRemoveRecord
        ∧ integrityDataTryUrl ∈ regenFileEnumToOverruledJobs integrityDataTryUrlElseRemoveRecord
        ∧ integrityDataRemoveRecord ∈ regenFileEnumToOverruledJobs integrityDataTryUrlElseRemoveRecord) := by
  refine ⟨by decide, ?_, by decide, by decide⟩
  decide

/-! Helper lemmas for the rebalance model. -/

theorem moveFile_fmap (s : ClientFilesState) (p : Fin 256) (dst : Nat) :
    (moveFile s p dst).fmap = Function.update s.fmap p dst := rfl

theorem moveThumb_fmap (s : ClientFilesState) (p : Fin 256) (dst : Nat) :
    (moveThumb s p dst).fmap = s.fmap := rfl

/-- A location is a key of the current map exactly when it holds a shard. -/
theorem mem_currentLocSet_iff (s : ClientFilesState) (loc : Nat) :
    loc ∈ currentLocSet s ↔ 0 < shardCount s loc := by
  rw [currentLocSet, shardCount, Finset.card_pos]
  constructor
  · intro h
    rcases Finset.mem_image.mp h with ⟨i, _, hi⟩
    exact ⟨i, Finset.mem_filter.mpr ⟨Finset.mem_univ i, hi⟩⟩
  · rintro ⟨i, hi⟩
    exact Finset.mem_image.mpr ⟨i, Finset.mem_univ i, (Finset.mem_filter.mp hi).2⟩

/-- No location is both overweight and underweight. -/
theorem overweight_underweight_ne (cfg : RebalanceConfig) (s : ClientFilesState)
    (loc : Nat) (hover : overweightLoc cfg s loc) (hunder : underweightLoc cfg s loc) :
    False := by
  obtain ⟨_, hc, hge⟩ := hover
  obtain ⟨_, himp⟩ := hunder
  have := himp hc
  linarith

theorem shardCount_moveFile_src (s : ClientFilesState) (p : Fin 256) (dst : Nat)
    (hne : dst ≠ s.fmap p) :
    shardCount (moveFile s p dst) (s.fmap p) = shardCount s (s.fmap p) - 1 := by
  have hset : (Finset.univ.filter fun i : Fin 256 =>
        (moveFile s p dst).fmap i = s.fmap p)
      = (Finset.univ.filter fun i : Fin 256 => s.fmap i = s.fmap p).erase p := by
    ext i
    rw [moveFile_fmap]
    by_cases hip : i = p
    · subst hip
      simp [Function.update_same, hne]
    · simp [Function.update_noteq hip, hip]
  rw [shardCount, shardCount, hset]
  exact Finset.card_erase_of_mem (Finset.mem_filter.mpr ⟨Finset.mem_univ p, rfl⟩)

theorem shardCount_moveFile_dst (s : ClientFilesState) (p : Fin 256) (dst : Nat)
    (hne : dst ≠ s.fmap p) :
    shardCount (moveFile s p dst) dst = shardCount s dst + 1 := by
  have hset : (Finset.univ.filter fun i : Fin 256 => (moveFile s p dst).fmap i = dst)
      = insert p (Finset.univ.filter fun i : Fin 256 => s.fmap i = dst) := by
    ext i
    rw [moveFile_fmap]
    by_cases hip : i = p
    · subst hip
      simp [Function.update_same]
    · simp [Function.update_noteq hip, hip]
  rw [shardCount, shardCount, hset,
    Finset.card_insert_of_not_mem (by simp [Ne.symm hne])]

theorem shardCount_moveFile_other (s : ClientFilesState) (p : Fin 256) (dst loc : Nat)
    (h1 : loc ≠ s.fmap p) (h2 : loc ≠ dst) :
    shardCount (moveFile s p dst) loc = shardCount s loc := by
  have hset : (Finset.univ.filter fun i : Fin 256 => (moveFile s p dst).fmap i = loc)
      = Finset.univ.filter fun i : Fin 256 => s.fmap i = loc := by
    ext i
    rw [moveFile_fmap]
    by_cases hip : i = p
    · subst hip
      simp [Function.update_same, Ne.symm h2, Ne.symm h1]
    · simp [Function.update_noteq hip]
  rw [shardCount, shardCount, hset]

theorem shardCount_moveThumb (s : ClientFilesState) (p : Fin 256) (dst loc : Nat) :
    shardCount (moveThumb s p dst) loc = shardCount s loc := rfl

/-- For an overweight location, the shard count strictly exceeds the integer target. -/
theorem overweightLoc_target_lt (cfg : RebalanceConfig) (s : ClientFilesState)
    (loc : Nat) (h : overweightLoc cfg s loc) :
    shardTarget cfg loc < shardCount s loc := by
  obtain ⟨_, hcnt, hge⟩ := h
  by_cases hid : loc ∈ cfg.idealLocs
  · have h256 : (0 : ℚ) < 256 := by norm_num
    rw [mergedIdealWeight, if_pos hid] at hge
    rw [currentWeight] at hge
    have hq : 256 * cfg.weight loc / totalWeight cfg
        ≤ (shardCount s loc : ℚ) - 1 := by
      have hmul := mul_le_mul_of_nonneg_left hge (le_of_lt h256)
      have hc : (256 : ℚ) * ((shardCount s loc : ℚ) / 256) = (shardCount s loc : ℚ) := by
        field_simp
      rw [mul_add, hc] at hmul
      have : (256 : ℚ) * (1 / 256) = 1 := by norm_num
      rw [this] at hmul
      calc 256 * cfg.weight loc / totalWeight cfg
          = 256 * (cfg.weight loc / totalWeight cfg) := by ring
        _ ≤ (shardCount s loc : ℚ) - 1 := by linarith
    have hceil : Int.ceil (256 * cfg.weight loc / totalWeight cfg)
        ≤ (shardCount s loc : ℤ) - 1 := by
      apply Int.ceil_le.mpr
      push_cast
      exact hq
    rw [shardTarget, if_pos hid, ceilTarget]
    omega
  · rw [shardTarget, if_neg hid]
    exact hcnt

/-- For an underweight location, when the total weight is positive and every
configured weight is positive, the shard count is strictly below the integer
target. -/
theorem underweightLoc_lt_target (cfg : RebalanceConfig) (s : ClientFilesState)
    (loc : Nat) (htot : 0 < totalWeight cfg)
    (hpos : ∀ l ∈ cfg.idealLocs, 0 < cfg.weight l)
    (h : underweightLoc cfg s loc) :
    shardCount s loc < shardTarget cfg loc := by
  obtain ⟨hmem, himp⟩ := h
  by_cases hcnt : 0 < shardCount s loc
  · have hlt := himp hcnt
    have hid : loc ∈ cfg.idealLocs := by
      by_contra hid
      rw [mergedIdealWeight, if_neg hid] at hlt
      rw [currentWeight] at hlt
      have : (0 : ℚ) ≤ (shardCount s loc : ℚ) / 256 := by positivity
      linarith
    rw [mergedIdealWeight, if_pos hid, currentWeight] at hlt
    have hq : (shardCount s loc : ℚ) < 256 * cfg.weight loc / totalWeight cfg := by
      have h256 : (0 : ℚ) < 256 := by norm_num
      have hmul := (mul_lt_mul_left h256).mpr hlt
      have hc : (256 : ℚ) * ((shardCount s loc : ℚ) / 256) = (shardCount s loc : ℚ) := by
        field_simp
      rw [hc] at hmul
      calc (shardCount s loc : ℚ) < 256 * (cfg.weight loc / totalWeight cfg) := hmul
        _ = 256 * cfg.weight loc / totalWeight cfg := by ring
    have hceil : (shardCount s loc : ℤ) < Int.ceil (256 * cfg.weight loc / totalWeight cfg) := by
      apply Int.lt_ceil.mpr
      push_cast
      exact hq
    rw [shardTarget, if_pos hid, ceilTarget]
    omega
  · have h0 : shardCount s loc = 0 := by omega
    have hid : loc ∈ cfg.idealLocs := by
      rcases Finset.mem_union.mp hmem with hl | hl
      · exact List.mem_toFinset.mp hl
      · exact absurd ((mem_currentLocSet_iff s loc).mp hl) hcnt
    have hw := hpos loc hid
    have hquot : (0 : ℚ) < 256 * cfg.weight loc / totalWeight cfg := by positivity
    have hceil := Int.ceil_pos.mpr hquot
    rw [shardTarget, if_pos hid, ceilTarget, h0]
    omega

/-- The file-phase measure can be computed over any superset of the current keys. -/
theorem filePhi_subset (cfg : RebalanceConfig) (s : ClientFilesState) (A : Finset Nat)
    (hA : currentLocSet s ⊆ A) :
    filePhi cfg s = ∑ loc in A, (shardCount s loc - shardTarget cfg loc) := by
  rw [filePhi]
  apply Finset.sum_subset hA
  intro x _ hnx
  have hx : shardCount s x = 0 := by
    by_contra hx
    exact hnx ((mem_currentLocSet_iff s x).mpr (Nat.pos_of_ne_zero hx))
  simp [hx]

/-- A file move lowers the file-phase measure by exactly one. -/
theorem filePhi_fileMove (cfg : RebalanceConfig) (s : ClientFilesState) (p : Fin 256)
    (dst : Nat) (hover : overweightLoc cfg s (s.fmap p))
    (hunder : underweightLoc cfg s dst) (htot : 0 < totalWeight cfg)
    (hpos : ∀ l ∈ cfg.idealLocs, 0 < cfg.weight l) :
    filePhi cfg (moveFile s p dst) + 1 = filePhi cfg s := by
  have hne : dst ≠ s.fmap p := fun h =>
    overweight_underweight_ne cfg s dst (h ▸ hover) hunder
  set src := s.fmap p with hsrc
  set s' := moveFile s p dst with hs'
  set A := currentLocSet s ∪ currentLocSet s' with hA
  have hsubs : currentLocSet s ⊆ A := Finset.subset_union_left
  have hsubs' : currentLocSet s' ⊆ A := Finset.subset_union_right
  have hcs : shardCount s' src = shardCount s src - 1 :=
    shardCount_moveFile_src s p dst hne
  have hcd : shardCount s' dst = shardCount s dst + 1 :=
    shardCount_moveFile_dst s p dst hne
  have hsrcA : src ∈ A := hsubs ((mem_currentLocSet_iff s src).mpr hover.2.1)
  have hdstA : dst ∈ A := hsubs' ((mem_currentLocSet_iff s' dst).mpr (by omega))
  have hdst_mem : dst ∈ A.erase src := Finset.mem_erase.mpr ⟨hne, hdstA⟩
  have key : ∀ loc ∈ (A.erase src).erase dst,
      shardCount s' loc - shardTarget cfg loc
        = shardCount s loc - shardTarget cfg loc := by
    intro loc hloc
    have h2 : loc ≠ dst := (Finset.mem_erase.mp hloc).1
    have h1 : loc ≠ src := (Finset.mem_erase.mp (Finset.mem_erase.mp hloc).2).1
    rw [hs', shardCount_moveFile_other s p dst loc h1 h2]
  have hts : shardTarget cfg src < shardCount s src :=
    overweightLoc_target_lt cfg s src hover
  have htd : shardCount s dst < shardTarget cfg dst :=
    underweightLoc_lt_target cfg s dst htot hpos hunder
  rw [filePhi_subset cfg s A hsubs, filePhi_subset cfg s' A hsubs']
  rw [← Finset.add_sum_erase A _ hsrcA, ← Finset.add_sum_erase (A.erase src) _ hdst_mem,
    ← Finset.add_sum_erase A
      (fun loc => shardCount s loc - shardTarget cfg loc) hsrcA,
    ← Finset.add_sum_erase (A.erase src)
      (fun loc => shardCount s loc - shardTarget cfg loc) hdst_mem]
  rw [Finset.sum_congr rfl key]
  rw [hcs, hcd]
  omega

/-- The file-phase measure never exceeds the number of 'f' prefixes. -/
theorem filePhi_le_256 (cfg : RebalanceConfig) (s : ClientFilesState) :
    filePhi cfg s ≤ 256 := by
  have h1 : filePhi cfg s ≤ ∑ loc in currentLocSet s, shardCount s loc :=
    Finset.sum_le_sum fun loc _ => Nat.sub_le _ _
  have hcard := Finset.card_eq_sum_card_fiberwise
    (fun (x : Fin 256) (_ : x ∈ (Finset.univ : Finset (Fin 256))) =>
      Finset.mem_image_of_mem s.fmap (Finset.mem_univ x))
  rw [Finset.card_univ, Fintype.card_fin] at hcard
  have h2 : ∑ loc in currentLocSet s, shardCount s loc = 256 := by
    simp only [shardCount]
    exact hcard.symm
  omega

/-- The correct thumbnail locations are untouched by a thumbnail move. -/
theorem thumbCorrectLocation_moveThumb (cfg : RebalanceConfig) (s : ClientFilesState)
    (p : Fin 256) (d : Nat) (q : Fin 256) :
    thumbCorrectLocation cfg (moveThumb s p d) q = thumbCorrectLocation cfg s q := rfl

/-- A thumbnail move lowers the thumbnail-phase measure by exactly one. -/
theorem thumbPhi_moveThumb (cfg : RebalanceConfig) (s : ClientFilesState) (p : Fin 256)
    (hmis : s.tmap p ≠ thumbCorrectLocation cfg s p) :
    thumbPhi cfg (moveThumb s p (thumbCorrectLocation cfg s p)) + 1 = thumbPhi cfg s := by
  have hcorr : ∀ q : Fin 256,
      thumbCorrectLocation cfg (moveThumb s p (thumbCorrectLocation cfg s p)) q
        = thumbCorrectLocation cfg s q := fun _ => rfl
  have htm : (moveThumb s p (thumbCorrectLocation cfg s p)).tmap
      = Function.update s.tmap p (thumbCorrectLocation cfg s p) := rfl
  have hset : (Finset.univ.filter fun q : Fin 256 =>
        (moveThumb s p (thumbCorrectLocation cfg s p)).tmap q
          ≠ thumbCorrectLocation cfg (moveThumb s p (thumbCorrectLocation cfg s p)) q)
      = (Finset.univ.filter fun q : Fin 256 =>
          s.tmap q ≠ thumbCorrectLocation cfg s q).erase p := by
    ext q
    simp only [Finset.mem_filter, Finset.mem_erase, Finset.mem_univ, true_and, hcorr, htm]
    by_cases hqp : q = p
    · subst hqp
      simp [Function.update_same]
    · simp [Function.update_noteq hqp, hqp]
  have hp : p ∈ Finset.univ.filter fun q : Fin 256 =>
      s.tmap q ≠ thumbCorrectLocation cfg s q :=
    Finset.mem_filter.mpr ⟨Finset.mem_univ p, hmis⟩
  have hpos : 0 < (Finset.univ.filter fun q : Fin 256 =>
      s.tmap q ≠ thumbCorrectLocation cfg s q).card :=
    Finset.card_pos.mpr ⟨p, hp⟩
  have hcard := Finset.card_erase_of_mem hp
  rw [thumbPhi, thumbPhi, hset, hcard]
  omega

/-- The thumbnail-phase measure never exceeds the number of 't' prefixes. -/
theorem thumbPhi_le_256 (cfg : RebalanceConfig) (s : ClientFilesState) :
    thumbPhi cfg s ≤ 256 := by
  rw [thumbPhi]
  calc (Finset.univ.filter fun p : Fin 256 =>
        s.tmap p ≠ thumbCorrectLocation cfg s p).card
      ≤ (Finset.univ : Finset (Fin 256)).card := Finset.card_filter_le _ _
    _ = 256 := by rw [Finset.card_univ, Fintype.card_fin]

/-- The shard counts depend only on the 'f'-shard assignment. -/
theorem shardCount_congr {s s' : ClientFilesState} (h : s'.fmap = s.fmap) :
    shardCount s' = shardCount s := by
  funext loc
  rw [shardCount, shardCount, h]

/-- The current key set depends only on the 'f'-shard assignment. -/
theorem currentLocSet_congr {s s' : ClientFilesState} (h : s'.fmap = s.fmap) :
    currentLocSet s' = currentLocSet s := by
  rw [currentLocSet, currentLocSet, h]

/-- The balanced-or-not verdict depends only on the 'f'-shard assignment. -/
theorem fileShardsBalanced_congr (cfg : RebalanceConfig) {s s' : ClientFilesState}
    (h : s'.fmap = s.fmap) :
    fileShardsBalanced cfg s' ↔ fileShardsBalanced cfg s := by
  unfold fileShardsBalanced overweightLoc underweightLoc itemsSet currentWeight
  rw [shardCount_congr h, currentLocSet_congr h]

/-- Every rebalance move either lowers the file measure on an unbalanced state or
keeps the 'f' assignment and lowers the thumbnail measure on a balanced state. -/
theorem rebalanceStep_cases (cfg : RebalanceConfig) {s s' : ClientFilesState}
    (htot : 0 < totalWeight cfg) (hpos : ∀ l ∈ cfg.idealLocs, 0 < cfg.weight l)
    (hstep : RebalanceStep cfg s s') :
    (filePhi cfg s' + 1 = filePhi cfg s ∧ ¬fileShardsBalanced cfg s)
    ∨ (s'.fmap = s.fmap ∧ fileShardsBalanced cfg s
        ∧ thumbPhi cfg s' + 1 = thumbPhi cfg s) := by
  cases hstep with
  | fileMove p dst hover hunder =>
    left
    refine ⟨filePhi_fileMove cfg s p dst hover hunder htot hpos, ?_⟩
    intro hbal
    exact hbal ⟨⟨_, hover⟩, ⟨_, hunder⟩⟩
  | thumbMove p hbal hmis =>
    right
    exact ⟨rfl, hbal, thumbPhi_moveThumb cfg s p hmis⟩

/-- While every visited state is unbalanced, the file measure falls by one per move. -/
theorem chain_file_measure (cfg : RebalanceConfig) (f : ℕ → ClientFilesState)
    (htot : 0 < totalWeight cfg) (hpos : ∀ l ∈ cfg.idealLocs, 0 < cfg.weight l) :
    ∀ m : ℕ, (∀ i, i < m → RebalanceStep cfg (f i) (f (i + 1)))
      → (∀ i, i < m → ¬fileShardsBalanced cfg (f i))
      → filePhi cfg (f m) + m = filePhi cfg (f 0) := by
  intro m
  induction m with
  | zero => intro _ _; simp
  | succ m ih =>
    intro hchain hunbal
    have h1 := ih (fun i hi => hchain i (by omega)) (fun i hi => hunbal i (by omega))
    have hstep := hchain m (by omega)
    rcases rebalanceStep_cases cfg htot hpos hstep with ⟨hphi, _⟩ | ⟨_, hbal, _⟩
    · omega
    · exact absurd hbal (hunbal m (by omega))

/-- From a balanced state the chain stays balanced and the thumbnail measure falls by
one per move. -/
theorem chain_thumb_measure (cfg : RebalanceConfig) (f : ℕ → ClientFilesState)
    (htot : 0 < totalWeight cfg) (hpos : ∀ l ∈ cfg.idealLocs, 0 < cfg.weight l)
    (m : ℕ) (hbal0 : fileShardsBalanced cfg (f m)) :
    ∀ k : ℕ, (∀ i, m ≤ i → i < m + k → RebalanceStep cfg (f i) (f (i + 1)))
      → fileShardsBalanced cfg (f (m + k))
        ∧ thumbPhi cfg (f (m + k)) + k = thumbPhi cfg (f m) := by
  intro k
  induction k with
  | zero => intro _; exact ⟨hbal0, by simp⟩
  | succ k ih =>
    intro hchain
    obtain ⟨hbal, hphi⟩ := ih fun i h1 h2 => hchain i h1 (by omega)
    have hstep := hchain (m + k) (by omega) (by omega)
    rcases rebalanceStep_cases cfg htot hpos hstep with ⟨_, hnb⟩ | ⟨hf, _, ht⟩
    · exact absurd hbal hnb
    · constructor
      · show fileShardsBalanced cfg (f ((m + k) + 1))
        exact (fileShardsBalanced_congr cfg hf).mpr hbal
      · show thumbPhi cfg (f ((m + k) + 1)) + (k + 1) = thumbPhi cfg (f m)
        omega

/-- No rebalance run makes more than 256 file moves plus 256 thumbnail moves. -/
theorem stepChain_le_512 (cfg : RebalanceConfig) (f : ℕ → ClientFilesState) (n : ℕ)
    (htot : 0 < totalWeight cfg) (hpos : ∀ l ∈ cfg.idealLocs, 0 < cfg.weight l)
    (hchain : StepChain cfg f n) : n ≤ 512 := by
  by_contra hgt
  push_neg at hgt
  by_cases hex : ∃ m, m < n ∧ fileShardsBalanced cfg (f m)
  · classical
    set m0 := Nat.find hex with hm0
    obtain ⟨hm0n, hbal0⟩ := Nat.find_spec hex
    have hunbal : ∀ i, i < m0 → ¬fileShardsBalanced cfg (f i) := by
      intro i hi hbal
      exact Nat.find_min hex hi ⟨by omega, hbal⟩
    have hpre := chain_file_measure cfg f htot hpos m0
      (fun i hi => hchain i (by omega)) hunbal
    have hf0 := filePhi_le_256 cfg (f 0)
    have hsuf := chain_thumb_measure cfg f htot hpos m0 hbal0 (n - m0)
      (fun i h1 h2 => hchain i (by omega))
    have ht0 := thumbPhi_le_256 cfg (f m0)
    have h2 := hsuf.2
    omega
  · push_neg at hex
    have h := chain_file_measure cfg f htot hpos n (fun i hi => hchain i hi)
      (fun i hi => hex i hi)
    have := filePhi_le_256 cfg (f 0)
    omega

/-- The running maximum deviation is nonnegative. -/
theorem maxDev_nonneg (cfg : RebalanceConfig) (s : ClientFilesState) :
    0 ≤ maxDev cfg s :=
  (Finset.le_fold_max 0).mpr (Or.inl le_rfl)

/-- Each merged location's deviation is at most the maximum deviation. -/
theorem deviation_le_maxDev (cfg : RebalanceConfig) (s : ClientFilesState) (loc : Nat)
    (h : loc ∈ itemsSet cfg s) :
    deviation cfg s loc ≤ maxDev cfg s :=
  (Finset.le_fold_max _).mpr (Or.inr ⟨loc, h, le_rfl⟩)

/-- No rebalance move increases the maximum absolute deviation. -/
theorem maxDev_step_nonincreasing (cfg : RebalanceConfig) {s s' : ClientFilesState}
    (htot : 0 < totalWeight cfg) (hpos : ∀ l ∈ cfg.idealLocs, 0 < cfg.weight l)
    (hstep : RebalanceStep cfg s s') :
    maxDev cfg s' ≤ maxDev cfg s := by
  cases hstep with
  | thumbMove p hbal hmis => exact le_of_eq rfl
  | fileMove p dst hover hunder =>
    have hne : dst ≠ s.fmap p := fun h =>
      overweight_underweight_ne cfg s dst (h ▸ hover) hunder
    set src := s.fmap p with hsrcdef
    set s' := moveFile s p dst with hs'
    have hmerged_nonneg : ∀ loc, 0 ≤ mergedIdealWeight cfg loc := by
      intro loc
      rw [mergedIdealWeight]
      split
      · next hid => exact le_of_lt (div_pos (hpos loc hid) htot)
      · exact le_rfl
    have hsrc_items : src ∈ itemsSet cfg s := hover.1
    have hdst_items : dst ∈ itemsSet cfg s := hunder.1
    have hcnt_src : 0 < shardCount s src := hover.2.1
    have hge : mergedIdealWeight cfg src + 1 / 256 ≤ currentWeight s src := hover.2.2
    have hdev_src : deviation cfg s src
        = currentWeight s src - mergedIdealWeight cfg src := by
      rw [deviation, abs_of_nonneg (by linarith)]
    have hdev_src_ge : 1 / 256 ≤ deviation cfg s src := by
      rw [hdev_src]
      linarith
    have hcw_src : currentWeight s' src = currentWeight s src - 1 / 256 := by
      rw [currentWeight, currentWeight, hs', shardCount_moveFile_src s p dst hne,
        Nat.cast_sub hcnt_src]
      push_cast
      ring
    have hcw_dst : currentWeight s' dst = currentWeight s dst + 1 / 256 := by
      rw [currentWeight, currentWeight, hs', shardCount_moveFile_dst s p dst hne]
      push_cast
      ring
    have hle_dst : currentWeight s dst ≤ mergedIdealWeight cfg dst := by
      rcases Nat.eq_zero_or_pos (shardCount s dst) with h0 | hposd
      · rw [currentWeight, h0]
        simpa using hmerged_nonneg dst
      · exact le_of_lt (hunder.2 hposd)
    have hitems : itemsSet cfg s' ⊆ itemsSet cfg s := by
      intro loc hloc
      rcases Finset.mem_union.mp hloc with h | h
      · exact Finset.mem_union_left _ h
      · have hc' : 0 < shardCount s' loc := (mem_currentLocSet_iff s' loc).mp h
        by_cases h1 : loc = src
        · rw [h1]
          exact Finset.mem_union_right _ ((mem_currentLocSet_iff s src).mpr hcnt_src)
        · by_cases h2 : loc = dst
          · rw [h2]
            exact hdst_items
          · have hco := shardCount_moveFile_other s p dst loc h1 h2
            rw [← hs'] at hco
            exact Finset.mem_union_right _
              ((mem_currentLocSet_iff s loc).mpr (by omega))
    show (itemsSet cfg s').fold max 0 (deviation cfg s') ≤ maxDev cfg s
    rw [Finset.fold_max_le]
    refine ⟨maxDev_nonneg cfg s, ?_⟩
    intro loc hloc
    by_cases h1 : loc = src
    · rw [h1]
      have hdev' : deviation cfg s' src = deviation cfg s src - 1 / 256 := by
        rw [deviation, hcw_src, abs_of_nonneg (by linarith), hdev_src]
        ring
      calc deviation cfg s' src ≤ deviation cfg s src := by
            rw [hdev']
            linarith
        _ ≤ maxDev cfg s := deviation_le_maxDev cfg s src hsrc_items
    · by_cases h2 : loc = dst
      · rw [h2]
        rcases le_or_lt (currentWeight s' dst) (mergedIdealWeight cfg dst) with hcase | hcase
        · have hdev' : deviation cfg s' dst
              = mergedIdealWeight cfg dst - currentWeight s' dst := by
            rw [deviation, abs_of_nonpos (by linarith), neg_sub]
          have hdevd : deviation cfg s dst
              = mergedIdealWeight cfg dst - currentWeight s dst := by
            rw [deviation, abs_of_nonpos (by linarith), neg_sub]
          calc deviation cfg s' dst ≤ deviation cfg s dst := by
                rw [hdev', hdevd, hcw_dst]
                linarith
            _ ≤ maxDev cfg s := deviation_le_maxDev cfg s dst hdst_items
        · have hdev' : deviation cfg s' dst
              = currentWeight s' dst - mergedIdealWeight cfg dst := by
            rw [deviation, abs_of_nonneg (by linarith)]
          calc deviation cfg s' dst ≤ 1 / 256 := by
                rw [hdev', hcw_dst]
                linarith
            _ ≤ deviation cfg s src := hdev_src_ge
            _ ≤ maxDev cfg s := deviation_le_maxDev cfg s src hsrc_items
      · have hcnt : shardCount s' loc = shardCount s loc := by
          rw [hs']
          exact shardCount_moveFile_other s p dst loc h1 h2
        have hdev : deviation cfg s' loc = deviation cfg s loc := by
          rw [deviation, deviation, currentWeight, currentWeight, hcnt]
        rw [hdev]
        exact deviation_le_maxDev cfg s loc (hitems hloc)

/-! Concrete evaluation of the counterexample configuration. -/

theorem cex_totalWeight : totalWeight cexCfg = 1 := by
  norm_num [totalWeight, cexCfg]

theorem cex_merged_zero : mergedIdealWeight cexCfg 0 = 1 := by
  rw [mergedIdealWeight, if_pos (by simp [cexCfg]), cex_totalWeight]
  norm_num [cexCfg]

theorem cex_merged_one : mergedIdealWeight cexCfg 1 = 0 := by
  rw [mergedIdealWeight, if_pos (by simp [cexCfg]), cex_totalWeight]
  norm_num [cexCfg]

theorem cex_merged_two : mergedIdealWeight cexCfg 2 = 0 := by
  rw [mergedIdealWeight, if_neg (by simp [cexCfg])]

theorem cexFmap_even (m : ℕ) :
    cexFmap (2 * m) = fun i : Fin 256 => if (i : ℕ) < m then 0 else 2 := by
  have h1 : (2 * m) % 2 = 0 := by omega
  have h2 : (2 * m) / 2 = m := by omega
  funext i
  simp [cexFmap, h1, h2]

theorem cexFmap_odd (m : ℕ) :
    cexFmap (2 * m + 1) = fun i : Fin 256 =>
      if (i : ℕ) < m then 0 else if (i : ℕ) = m then 1 else 2 := by
  have h1 : (2 * m + 1) % 2 = 1 := by omega
  have h2 : (2 * m + 1) / 2 = m := by omega
  funext i
  simp [cexFmap, h1, h2]

/-- Move number 2m of the counterexample run: a shard leaves the unconfigured
location 2 for the zero-weight underweight location 1. -/
theorem cex_step_even (m : ℕ) (hm : m < 256) :
    RebalanceStep cexCfg (cexState (2 * m)) (cexState (2 * m + 1)) := by
  have he : cexState (2 * m)
      = ⟨fun i : Fin 256 => if (i : ℕ) < m then 0 else 2, fun _ => 2⟩ := by
    unfold cexState
    rw [if_pos (by omega : 2 * m ≤ 512), cexFmap_even]
  have ho : cexState (2 * m + 1)
      = ⟨fun i : Fin 256 => if (i : ℕ) < m then 0 else if (i : ℕ) = m then 1 else 2,
         fun _ => 2⟩ := by
    unfold cexState
    rw [if_pos (by omega : 2 * m + 1 ≤ 512), cexFmap_odd]
  rw [he, ho]
  set sE : ClientFilesState :=
    ⟨fun i : Fin 256 => if (i : ℕ) < m then 0 else 2, fun _ => 2⟩ with hsE
  have hfmap_p : sE.fmap ⟨m, hm⟩ = 2 := by
    simp [hsE]
  have hcnt2 : 0 < shardCount sE 2 := by
    rw [shardCount]
    apply Finset.card_pos.mpr
    refine ⟨⟨255, by omega⟩, Finset.mem_filter.mpr ⟨Finset.mem_univ _, ?_⟩⟩
    simp [hsE, show ¬(255 < m) from by omega]
  have hov2 : overweightLoc cexCfg sE 2 := by
    refine ⟨Finset.mem_union_right _ ((mem_currentLocSet_iff sE 2).mpr hcnt2), hcnt2, ?_⟩
    have hge1 : (1 : ℚ) ≤ (shardCount sE 2 : ℚ) := by exact_mod_cast hcnt2
    rw [cex_merged_two, currentWeight]
    linarith
  have hov : overweightLoc cexCfg sE (sE.fmap ⟨m, hm⟩) := by
    rw [hfmap_p]
    exact hov2
  have hund : underweightLoc cexCfg sE 1 := by
    refine ⟨Finset.mem_union_left _ (by simp [cexCfg]), ?_⟩
    intro hposc
    have hc1 : shardCount sE 1 = 0 := by
      rw [shardCount, Finset.card_eq_zero, Finset.filter_eq_empty_iff]
      intro i _
      by_cases hlt : (i : ℕ) < m <;> simp [hsE, hlt]
    rw [hc1] at hposc
    exact absurd hposc (lt_irrefl 0)
  have hstep : RebalanceStep cexCfg sE (moveFile sE ⟨m, hm⟩ 1) :=
    RebalanceStep.fileMove sE ⟨m, hm⟩ 1 hov hund
  have hres : moveFile sE ⟨m, hm⟩ 1
      = ⟨fun i : Fin 256 => if (i : ℕ) < m then 0 else if (i : ℕ) = m then 1 else 2,
         fun _ => 2⟩ := by
    apply ClientFilesState.ext
    · funext i
      rw [moveFile_fmap]
      by_cases him : i = (⟨m, hm⟩ : Fin 256)
      · rw [him, Function.update_same]
        simp
      · rw [Function.update_noteq him]
        have him' : (i : ℕ) ≠ m := fun h => him (Fin.ext h)
        by_cases hlt : (i : ℕ) < m <;> simp [hsE, hlt, him']
    · rfl
  exact hres ▸ hstep

/-- Move number 2m+1 of the counterexample run: the newly arrived shard makes the
zero-weight location 1 overweight and is pushed on to the underweight location 0. -/
theorem cex_step_odd (m : ℕ) (hm : m < 256) :
    RebalanceStep cexCfg (cexState (2 * m + 1)) (cexState (2 * m + 2)) := by
  have ho : cexState (2 * m + 1)
      = ⟨fun i : Fin 256 => if (i : ℕ) < m then 0 else if (i : ℕ) = m then 1 else 2,
         fun _ => 2⟩ := by
    unfold cexState
    rw [if_pos (by omega : 2 * m + 1 ≤ 512), cexFmap_odd]
  have he2 : cexState (2 * m + 2)
      = ⟨fun i : Fin 256 => if (i : ℕ) < m + 1 then 0 else 2, fun _ => 2⟩ := by
    unfold cexState
    rw [if_pos (by omega : 2 * m + 2 ≤ 512),
      show 2 * m + 2 = 2 * (m + 1) from by ring, cexFmap_even]
  rw [ho, he2]
  set sO : ClientFilesState :=
    ⟨fun i : Fin 256 => if (i : ℕ) < m then 0 else if (i : ℕ) = m then 1 else 2,
     fun _ => 2⟩ with hsO
  have hfmap_p : sO.fmap ⟨m, hm⟩ = 1 := by
    simp [hsO]
  have hcnt1 : 0 < shardCount sO 1 := by
    rw [shardCount]
    apply Finset.card_pos.mpr
    refine ⟨⟨m, hm⟩, Finset.mem_filter.mpr ⟨Finset.mem_univ _, ?_⟩⟩
    simp [hsO]
  have hov1 : overweightLoc cexCfg sO 1 := by
    refine ⟨Finset.mem_union_right _ ((mem_currentLocSet_iff sO 1).mpr hcnt1), hcnt1, ?_⟩
    have hge1 : (1 : ℚ) ≤ (shardCount sO 1 : ℚ) := by exact_mod_cast hcnt1
    rw [cex_merged_one, currentWeight]
    linarith
  have hov : overweightLoc cexCfg sO (sO.fmap ⟨m, hm⟩) := by
    rw [hfmap_p]
    exact hov1
  have hund : underweightLoc cexCfg sO 0 := by
    refine ⟨Finset.mem_union_left _ (by simp [cexCfg]), ?_⟩
    intro _
    have hlt256 : shardCount sO 0 < 256 := by
      rw [shardCount]
      have hne : (⟨m, hm⟩ : Fin 256) ∉
          (Finset.univ.filter fun i : Fin 256 => sO.fmap i = 0) := by
        simp [hsO]
      calc (Finset.univ.filter fun i : Fin 256 => sO.fmap i = 0).card
          < (Finset.univ : Finset (Fin 256)).card := by
            apply Finset.card_lt_card
            rw [Finset.ssubset_univ_iff]
            intro hun
            rw [hun] at hne
            exact hne (Finset.mem_univ _)
        _ = 256 := by rw [Finset.card_univ, Fintype.card_fin]
    have hcast : (shardCount sO 0 : ℚ) < 256 := by exact_mod_cast hlt256
    rw [cex_merged_zero, currentWeight]
    linarith
  have hstep : RebalanceStep cexCfg sO (moveFile sO ⟨m, hm⟩ 0) :=
    RebalanceStep.fileMove sO ⟨m, hm⟩ 0 hov hund
  have hres : moveFile sO ⟨m, hm⟩ 0
      = ⟨fun i : Fin 256 => if (i : ℕ) < m + 1 then 0 else 2, fun _ => 2⟩ := by
    apply ClientFilesState.ext
    · funext i
      rw [moveFile_fmap]
      by_cases him : i = (⟨m, hm⟩ : Fin 256)
      · rw [him, Function.update_same]
        simp
      · rw [Function.update_noteq him]
        have him' : (i : ℕ) ≠ m := fun h => him (Fin.ext h)
        by_cases hlt : (i : ℕ) < m
        · simp [hsO, hlt, show (i : ℕ) < m + 1 from by omega]
        · simp [hsO, hlt, him', show ¬((i : ℕ) < m + 1) from by omega]
    · rfl
  exact hres ▸ hstep

/-- Move number 512 of the counterexample run: the file shards are balanced and a
misplaced thumbnail shard moves. -/
theorem cex_step_thumb : RebalanceStep cexCfg (cexState 512) (cexState 513) := by
  have hconst : cexFmap 512 = fun _ : Fin 256 => 0 := by
    have h := cexFmap_even 256
    norm_num at h
    rw [h]
  have h1 : cexState 512 = ⟨fun _ => 0, fun _ => 2⟩ := by
    unfold cexState
    rw [if_pos (by omega : (512 : ℕ) ≤ 512), hconst]
  have h2 : cexState 513
      = ⟨fun _ => 0, Function.update (fun _ => 2) (0 : Fin 256) 0⟩ := by
    unfold cexState
    rw [if_neg (by omega : ¬(513 : ℕ) ≤ 512), hconst]
  rw [h1, h2]
  have hbal : fileShardsBalanced cexCfg ⟨fun _ => 0, fun _ => 2⟩ := by
    rintro ⟨⟨loc, hover⟩, -⟩
    obtain ⟨_, hcnt, hge⟩ := hover
    have hloc0 : loc = 0 := by
      have hmem := (mem_currentLocSet_iff _ loc).mpr hcnt
      rcases Finset.mem_image.mp hmem with ⟨i, -, hi⟩
      exact hi.symm
    subst hloc0
    have hcnt256 : shardCount ⟨fun _ => 0, fun _ => 2⟩ 0 = 256 := by
      rw [shardCount]
      have hall : (Finset.univ.filter fun i : Fin 256 =>
          (⟨fun _ => 0, fun _ => 2⟩ : ClientFilesState).fmap i = 0) = Finset.univ :=
        Finset.filter_true_of_mem fun i _ => rfl
      rw [hall, Finset.card_univ, Fintype.card_fin]
    rw [currentWeight, hcnt256, cex_merged_zero] at hge
    norm_num at hge
  have hmis : (⟨fun _ => 0, fun _ => 2⟩ : ClientFilesState).tmap 0
      ≠ thumbCorrectLocation cexCfg ⟨fun _ => 0, fun _ => 2⟩ 0 := by
    simp [thumbCorrectLocation, cexCfg]
  have hstep : RebalanceStep cexCfg ⟨fun _ => 0, fun _ => 2⟩
      (moveThumb ⟨fun _ => 0, fun _ => 2⟩ 0
        (thumbCorrectLocation cexCfg ⟨fun _ => 0, fun _ => 2⟩ 0)) :=
    RebalanceStep.thumbMove ⟨fun _ => 0, fun _ => 2⟩ 0 hbal hmis
  have hcorr : thumbCorrectLocation cexCfg ⟨fun _ => 0, fun _ => 2⟩ 0 = 0 := by
    simp [thumbCorrectLocation, cexCfg]
  rw [hcorr] at hstep
  exact hstep

/-- The counterexample run makes 513 consecutive moves. -/
theorem cex_chain : StepChain cexCfg cexState 513 := by
  intro i hi
  by_cases h512 : i = 512
  · rw [h512]
    exact cex_step_thumb
  · have hi' : i < 512 := by omega
    by_cases hpar : i % 2 = 0
    · have heq : i = 2 * (i / 2) := by omega
      rw [heq]
      exact cex_step_even (i / 2) (by omega)
    · have heq : i = 2 * (i / 2) + 1 := by omega
      rw [heq]
      exact cex_step_odd (i / 2) (by omega)

/-- C4 counterexample: with one location configured at weight 0 (the total weight
still positive), an adversarial dictionary order drives the rebalancer through 513
consecutive moves, so after 256 file-shard moves plus 256 thumbnail-shard moves
GetRebalanceTuple still returns a move rather than none. -/
theorem rebalance_bound_counterexample :
    0 < totalWeight cexCfg ∧ StepChain cexCfg cexState 513 :=
  ⟨by rw [cex_totalWeight]; norm_num, cex_chain⟩

/-- C4 amended: for every configuration with positive total weight in which every
configured ideal weight is positive, no rebalance move increases the maximum
absolute deviation, and every run of moves ends (GetRebalanceTuple returns none)
after at most 256 file-shard moves plus 256 thumbnail-shard moves. -/
theorem rebalance_monotone_and_bounded (cfg : RebalanceConfig)
    (f : ℕ → ClientFilesState) (n : ℕ) (htot : 0 < totalWeight cfg)
    (hpos : ∀ l ∈ cfg.idealLocs, 0 < cfg.weight l) (hchain : StepChain cfg f n) :
    (∀ i, i < n → maxDev cfg (f (i + 1)) ≤ maxDev cfg (f i)) ∧ n ≤ 256 + 256 :=
  ⟨fun i hi => maxDev_step_nonincreasing cfg htot hpos (hchain i hi),
   stepChain_le_512 cfg f n htot hpos hchain⟩

/-- Witness for the amended C4 theorem at a one-location configuration and the empty
run. -/
theorem rebalance_monotone_and_bounded_witness :
    (0 < totalWeight unitCfg
      ∧ (∀ l ∈ unitCfg.idealLocs, 0 < unitCfg.weight l)
      ∧ StepChain unitCfg (fun _ => zeroState) 0)
    ∧ ((∀ i, i < 0 → maxDev unitCfg ((fun _ => zeroState) (i + 1))
          ≤ maxDev unitCfg ((fun _ => zeroState) i)) ∧ (0 : ℕ) ≤ 256 + 256) := by
  have htot : 0 < totalWeight unitCfg := by norm_num [totalWeight, unitCfg]
  have hpos : ∀ l ∈ unitCfg.idealLocs, 0 < unitCfg.weight l := by
    intro l _
    norm_num [unitCfg]
  have hchain : StepChain unitCfg (fun _ => zeroState) 0 :=
    fun i hi => absurd hi (Nat.not_lt_zero i)
  exact ⟨⟨htot, hpos, hchain⟩,
    rebalance_monotone_and_bounded unitCfg (fun _ => zeroState) 0 htot hpos hchain⟩

end HydrusFiles
